import Mathlib

/-!
# docker-cache: the cache engine over a model of the Redis store

The Go program (`cache.go`, `docker_cache.go`) drives a Redis server through the
`radix` client.  The development has three layers:

* the store: keys holding strings, hashes and sets, with the commands the
  program sends (`Store.run`), and the per-connection `MULTI`/`EXEC` queue;
* the client connection (`Conn`): `Cmd`, `Append`, `GetReply` with the pipeline
  of appended requests;
* the functions of `cache.go` and `docker_cache.go`, written over that state.

Go `error` values are `Option String` (`none` is `nil`); a run that panics is
`none` in the outer `Option` of a function's result.  The local clock
(`time.Now().UTC().Unix()`) is the parameter `localts` of the functions that
read it, one reading per call.  No time passes inside a call: a time to live
set by `EXPIRE` is recorded with the key and never runs out.
-/

namespace DockerCache

/-! ## Integers of the Go runtime and decimal text -/

/-- Two's complement wrap-around of a mathematical integer into `int64`. -/
def wrap64 (x : Int) : Int :=
  (x + 9223372036854775808) % 18446744073709551616 - 9223372036854775808

/-- Smallest `int64`. -/
def INT64_MIN : Int := -9223372036854775808

/-- Largest `int64`. -/
def INT64_MAX : Int := 9223372036854775807

/-- Value of a run of decimal digits, `none` when a character is not a digit. -/
def parseDigits : List Char → Nat → Option Nat
  | [], acc => some acc
  | c :: cs, acc =>
    if c.isDigit then parseDigits cs (acc * 10 + (c.toNat - 48)) else none

/-- Range check of a signed value against `int64`. -/
def inInt64 (v : Int) : Option Int :=
  if INT64_MIN ≤ v ∧ v ≤ INT64_MAX then some v else none

/-- Go `strconv.ParseInt(s, 10, 64)` (and `strconv.Atoi` on a 64-bit
platform): an optional sign, then at least one decimal digit, in range. -/
def goParseInt (s : String) : Option Int :=
  match s.data with
  | [] => none
  | '-' :: [] => none
  | '+' :: [] => none
  | '-' :: cs => (parseDigits cs 0).bind fun n => inInt64 (-(n : Int))
  | '+' :: cs => (parseDigits cs 0).bind fun n => inInt64 (n : Int)
  | cs => (parseDigits cs 0).bind fun n => inInt64 (n : Int)

/-- Redis `string2ll`: the strict decimal form the server accepts for an
integer stored as text (no plus sign, no leading zero, no `-0`). -/
def redisParseInt (s : String) : Option Int :=
  match s.data with
  | [] => none
  | ['0'] => some 0
  | '-' :: c :: cs =>
    if c.isDigit ∧ c ≠ '0' then (parseDigits (c :: cs) 0).bind fun n => inInt64 (-(n : Int))
    else none
  | c :: cs =>
    if c.isDigit ∧ c ≠ '0' then (parseDigits (c :: cs) 0).bind fun n => inInt64 (n : Int)
    else none

/-- Go `strconv.FormatInt(v, 10)` / `strconv.Itoa`, also the decimal text
Redis writes for an integer. -/
def formatInt (v : Int) : String := toString v

/-! ## The Redis store -/

/-- A value held at a key.  The program only creates strings, hashes and sets. -/
inductive Value where
  | str (s : String)
  | hash (fields : List (String × String))
  | set (members : List String)
deriving DecidableEq, Repr

/-- A key's value together with its time to live in seconds, when one is set. -/
structure Entry where
  val : Value
  ttl : Option Int
deriving DecidableEq, Repr

/-- A reply of the server as the client decodes it. -/
inductive Reply where
  | status (s : String)
  | error (msg : String)
  | int (n : Int)
  | bulk (s : String)
  | nil
  | multi (elems : List Reply)

/-- The commands the program sends. -/
inductive Command where
  | select (db : Int)
  | auth (pwd : String)
  | publish (channel message : String)
  | time
  | smembers (key : String)
  | hget (key field : String)
  | hset (key field value : String)
  | hincrby (key field : String) (n : Int)
  | del (key : String)
  | srem (key member : String)
  | sadd (key member : String)
  | expire (key : String) (secs : Int)
  | set (key value : String)
  | multi
  | exec
deriving DecidableEq, Repr

/-- The server: the selected database's keyspace, the messages published so far
(oldest first), the answer to `TIME` (`none` on a server too old to know the
command), the selected database index, the number of databases and the
password required by `AUTH`. -/
structure Store where
  data : String → Option Entry
  published : List (String × String)
  clock : Option Int
  db : Int
  databases : Int
  requirepass : Option String

/-- Error text for a command applied to a key of the wrong type. -/
def WRONGTYPE : String :=
  "WRONGTYPE Operation against a key holding the wrong kind of value"

/-- Value of a field in a hash's field list. -/
def hashGet (fields : List (String × String)) (f : String) : Option String :=
  (fields.find? fun p => p.1 = f).map Prod.snd

/-- Field list with `f` set to `v`: replaced in place, or added at the end. -/
def hashSet : List (String × String) → String → String → List (String × String)
  | [], f, v => [(f, v)]
  | (g, w) :: rest, f, v => if g = f then (g, v) :: rest else (g, w) :: hashSet rest f v

/-- Keyspace with key `k` bound to `e` (or removed, for `none`). -/
def Store.put (s : Store) (k : String) (e : Option Entry) : Store :=
  { s with data := fun x => if x = k then e else s.data x }

/-- One command executed by the server.  A command on a key of another type
answers `WRONGTYPE` and changes nothing; `SREM` removes a set it leaves empty;
`HINCRBY` reads an absent key or field as 0 and rejects a text that is no
integer and a result outside `int64`; `EXPIRE` with a time that is not
positive deletes the key. -/
def Store.run (s : Store) : Command → Reply × Store
  | .select n =>
    if 0 ≤ n ∧ n < s.databases then (.status "OK", { s with db := n })
    else (.error "ERR invalid DB index", s)
  | .auth pwd =>
    if s.requirepass = some pwd then (.status "OK", s)
    else (.error "ERR invalid password", s)
  | .publish ch msg => (.int 0, { s with published := s.published ++ [(ch, msg)] })
  | .time =>
    match s.clock with
    | some t => (.multi [.bulk (formatInt t), .bulk "0"], s)
    | none => (.error "ERR unknown command", s)
  | .smembers k =>
    match s.data k with
    | none => (.multi [], s)
    | some ⟨.set ms, _⟩ => (.multi (ms.map Reply.bulk), s)
    | some _ => (.error WRONGTYPE, s)
  | .hget k f =>
    match s.data k with
    | none => (.nil, s)
    | some ⟨.hash fs, _⟩ =>
      match hashGet fs f with
      | some v => (.bulk v, s)
      | none => (.nil, s)
    | some _ => (.error WRONGTYPE, s)
  | .hset k f v =>
    match s.data k with
    | none => (.int 1, s.put k (some ⟨.hash [(f, v)], none⟩))
    | some ⟨.hash fs, t⟩ =>
      (.int (if (hashGet fs f).isSome then 0 else 1), s.put k (some ⟨.hash (hashSet fs f v), t⟩))
    | some _ => (.error WRONGTYPE, s)
  | .hincrby k f n =>
    match s.data k with
    | none => (.int n, s.put k (some ⟨.hash [(f, formatInt n)], none⟩))
    | some ⟨.hash fs, t⟩ =>
      match hashGet fs f with
      | none => (.int n, s.put k (some ⟨.hash (hashSet fs f (formatInt n)), t⟩))
      | some old =>
        match redisParseInt old with
        | none => (.error "ERR hash value is not an integer", s)
        | some v =>
          if INT64_MIN ≤ v + n ∧ v + n ≤ INT64_MAX then
            (.int (v + n), s.put k (some ⟨.hash (hashSet fs f (formatInt (v + n))), t⟩))
          else (.error "ERR increment or decrement would overflow", s)
    | some _ => (.error WRONGTYPE, s)
  | .del k =>
    match s.data k with
    | none => (.int 0, s)
    | some _ => (.int 1, s.put k none)
  | .srem k m =>
    match s.data k with
    | none => (.int 0, s)
    | some ⟨.set ms, t⟩ =>
      if m ∈ ms then
        (.int 1, s.put k (if ms.filter (fun x => x ≠ m) = [] then none
                          else some ⟨.set (ms.filter fun x => x ≠ m), t⟩))
      else (.int 0, s)
    | some _ => (.error WRONGTYPE, s)
  | .sadd k m =>
    match s.data k with
    | none => (.int 1, s.put k (some ⟨.set [m], none⟩))
    | some ⟨.set ms, t⟩ =>
      if m ∈ ms then (.int 0, s) else (.int 1, s.put k (some ⟨.set (ms ++ [m]), t⟩))
    | some _ => (.error WRONGTYPE, s)
  | .expire k secs =>
    match s.data k with
    | none => (.int 0, s)
    | some e =>
      if secs ≤ 0 then (.int 1, s.put k none)
      else (.int 1, s.put k (some { e with ttl := some secs }))
  | .set k v => (.status "OK", s.put k (some ⟨.str v, none⟩))
  | .multi => (.error "ERR MULTI calls can not be nested", s)
  | .exec => (.error "ERR EXEC without MULTI", s)

/-- The queued commands of a transaction run in order; their replies. -/
def Store.runAll (s : Store) : List Command → List Reply × Store
  | [] => ([], s)
  | cmd :: rest =>
    let (r, s1) := s.run cmd
    let (rs, s2) := s1.runAll rest
    (r :: rs, s2)

/-! ## The client connection -/

/-- A connection: the server, the server's transaction queue for this
connection (`none` outside `MULTI`), the requests appended and not yet sent, the
replies received and not yet handed out. -/
structure Conn where
  server : Store
  queued : Option (List Command)
  pending : List Command
  completed : List Reply

/-- A fresh connection to a server. -/
def Conn.idle (s : Store) : Conn := ⟨s, none, [], []⟩

/-- The server handles one request of this connection.  Inside `MULTI` a command
is queued; `EXEC` runs the queue in order and answers with the list of the
replies, in which a rejected command is an error element. -/
def Conn.handle (c : Conn) (cmd : Command) : Reply × Conn :=
  match c.queued with
  | none =>
    match cmd with
    | .multi => (.status "OK", { c with queued := some [] })
    | _ =>
      let (r, s) := c.server.run cmd
      (r, { c with server := s })
  | some q =>
    match cmd with
    | .exec =>
      let (rs, s) := c.server.runAll q
      (.multi rs, { c with server := s, queued := none })
    | .multi => (.error "ERR MULTI calls can not be nested", c)
    | _ => (.status "QUEUED", { c with queued := some (q ++ [cmd]) })

/-- The server handles a batch of requests in order. -/
def Conn.handleAll (c : Conn) : List Command → List Reply × Conn
  | [] => ([], c)
  | cmd :: rest =>
    let (r, c1) := c.handle cmd
    let (rs, c2) := c1.handleAll rest
    (r :: rs, c2)

/-- Client `Cmd`: send one request and read its reply. -/
def Conn.Cmd (c : Conn) (cmd : Command) : Reply × Conn := c.handle cmd

/-- Client `Append`: add a request to the pipeline. -/
def Conn.Append (c : Conn) (cmd : Command) : Conn :=
  { c with pending := c.pending ++ [cmd] }

/-- Client `GetReply`: the next reply already received, else send the whole
pipeline, read every reply and hand out the first. -/
def Conn.GetReply (c : Conn) : Reply × Conn :=
  match c.completed with
  | r :: rs => (r, { c with completed := rs })
  | [] =>
    match c.pending with
    | [] => (.error "pipeline queue is empty", c)
    | cmds =>
      match ({ c with pending := [] } : Conn).handleAll cmds with
      | (r :: rs, c1) => (r, { c1 with completed := rs })
      | ([], c1) => (.error "pipeline queue is empty", c1)

/-- The `Err` field of a reply: set for an error reply only. -/
def Reply.Err : Reply → Option String
  | .error msg => some msg
  | _ => none

/-- The `List` method of a reply: the elements of a multi reply as strings. -/
def Reply.List : Reply → Except String (List String)
  | .error msg => .error msg
  | .multi elems =>
    elems.foldr (fun e acc =>
      match acc, e with
      | .error m, _ => .error m
      | .ok xs, .bulk b => .ok (b :: xs)
      | .ok xs, .nil => .ok ("" :: xs)
      | .ok _, _ => .error "nil or bulk reply expected") (.ok [])
  | _ => .error "reply type is not MultiReply"

/-- The `Int64` method of a reply. -/
def Reply.Int64 : Reply → Except String Int
  | .error msg => .error msg
  | .int n => .ok n
  | .bulk b =>
    match goParseInt b with
    | some v => .ok v
    | none => .error "failed to parse integer value from string value"
  | .status b =>
    match goParseInt b with
    | some v => .ok v
    | none => .error "failed to parse integer value from string value"
  | _ => .error "integer value is not available for this reply type"

/-! ## cache.go -/

/-- Prefix of every key. -/
def CACHE_PREFIX : String := "docker"

/-- Channel of the notifications. -/
def EVENTS_CHANNEL : String := "docker_events"

/-- The `Cache` struct without its connection, which is passed explicitly:
the host id and the time to live, a `time.Duration` in nanoseconds. -/
structure Cache where
  id : String
  ttl : Int

/-- The expression `int(cache.ttl.Seconds())`: whole seconds, truncated towards
zero.  (`Seconds` is a `float64`; the value is the exact quotient whenever the
duration is a multiple of a half second, as `main` builds it.) -/
def Cache.ttlSecs (cache : Cache) : Int := Int.tdiv cache.ttl 1000000000

/-- What the cache uses of a `dockerclient.ContainerInfo`: its id, the
flattened field map `structToMap` builds from it (in the order the `range`
over the map visits it) and the result of `json.Marshal`. -/
structure ContainerInfo where
  Id : String
  fields : List (String × String)
  json : Except String String

/-- What the cache uses of a `dockerclient.Container` of a listing. -/
structure Container where
  Id : String

/-- Key of the set of host ids. -/
def hostsKey : String := CACHE_PREFIX ++ ":hosts"

/-- Key of a host's record. -/
def hostKey (id : String) : String := CACHE_PREFIX ++ ":hosts:" ++ id

/-- Key of a host's set of container ids. -/
def hostContainersKey (id : String) : String := CACHE_PREFIX ++ ":hosts:" ++ id ++ ":containers"

/-- Key of a container's flattened fields. -/
def containerKey (id : String) : String := CACHE_PREFIX ++ ":containers:" ++ id

/-- Go `publishEvent`. -/
def publishEvent (args : List String) (c : Conn) : Option String × Conn :=
  let event := String.intercalate ":" args
  let (r, c) := c.Cmd (.publish EVENTS_CHANNEL event)
  match r.Err with
  | some e => (some e, c)
  | none => (none, c)

/-- The part of `getHostTimestamp` after the `time` command: the value
returned for a reply `r` when the local clock reads `localts`; `none` is the
panic of `ts[0]` on the nil slice that `List` returns with an error. -/
def hostTimestampOfReply (localts : Int) (r : Reply) : Option Int :=
  match r.Err with
  | some _ => some localts
  | none =>
    match r.List with
    | .ok _ => some localts
    | .error _ => none

/-- Go `getHostTimestamp`, with the reading `localts` of the local clock. -/
def getHostTimestamp (localts : Int) (c : Conn) : Option (Int × Conn) :=
  let (r, c) := c.Cmd .time
  (hostTimestampOfReply localts r).map fun t => (t, c)

/-- Go `SetHostParam`. -/
def SetHostParam (cache : Cache) (key value : String) (c : Conn) : Option String × Conn :=
  let hKey := CACHE_PREFIX ++ ":hosts:" ++ cache.id
  let (r, c) := c.Cmd (.hset hKey key value)
  match r.Err with
  | some e => (some e, c)
  | none => (none, c)

/-- Go `refreshHostLastUpdate`. -/
def refreshHostLastUpdate (cache : Cache) (localts : Int) (c : Conn) :
    Option (Option String × Conn) :=
  match getHostTimestamp localts c with
  | none => none
  | some (t, c) => some (SetHostParam cache "last_update" (formatInt t) c)

/-- The loop `for i := 0; i < n; i++ { c.GetReply() }` of `deleteHost`. -/
def dropReplies : Nat → Conn → Conn
  | 0, c => c
  | n + 1, c => dropReplies n c.GetReply.2

/-- The loop `for i := 0; i < n; i++ { r := c.GetReply(); if r.Err != nil
{ return r.Err } }`. -/
def readReplies : Nat → Conn → Option String × Conn
  | 0, c => (none, c)
  | n + 1, c =>
    let (r, c) := c.GetReply
    match r.Err with
    | some e => (some e, c)
    | none => readReplies n c

/-- Go `deleteHost`. -/
def deleteHost (id : String) (c : Conn) : Conn :=
  let c := c.Append .multi
  let key := CACHE_PREFIX ++ ":hosts"
  let c := c.Append (.srem key id)
  let key := key ++ (":" ++ id)
  let c := c.Append (.del key)
  let key := key ++ ":containers"
  let c := c.Append (.del key)
  let c := c.Append .exec
  dropReplies 5 c

/-- One iteration of the loop of `ClearExpiredHosts` for `host`. -/
def clearHost (cache : Cache) (localts : Int) (host : String) (c : Conn) : Option Conn :=
  if host = cache.id then some c
  else
    let key := CACHE_PREFIX ++ ":hosts:" ++ host
    let (r, c) := c.Cmd (.hget key "last_update")
    match r.Err with
    | some _ => some c
    | none =>
      match r.Int64 with
      | .error _ => some c
      | .ok lastUpdate =>
        let (r, c) := c.Cmd (.hget key "update_interval")
        match r.Err with
        | some _ => some c
        | none =>
          match r.Int64 with
          | .error _ => some c
          | .ok updateInterval =>
            match getHostTimestamp localts c with
            | none => none
            | some (timestamp, c) =>
              if wrap64 (timestamp - lastUpdate) < wrap64 (2 * updateInterval) then some c
              else
                let c := deleteHost host c
                some (publishEvent ["expired_host", host] c).2

/-- The loop of `ClearExpiredHosts` over the listed hosts. -/
def clearHosts (cache : Cache) (localts : Int) : List String → Conn → Option Conn
  | [], c => some c
  | host :: rest, c =>
    match clearHost cache localts host c with
    | none => none
    | some c => clearHosts cache localts rest c

/-- Go `ClearExpiredHosts`. -/
def ClearExpiredHosts (cache : Cache) (localts : Int) (c : Conn) :
    Option (Option String × Conn) :=
  let (r, c) := c.Cmd (.smembers (CACHE_PREFIX ++ ":hosts"))
  match r.Err with
  | some e => some (some e, c)
  | none =>
    match r.List with
    | .error e => some (some e, c)
    | .ok hosts => (clearHosts cache localts hosts c).map fun c => (none, c)

/-- The loop `for k, v := range m { c.Append("hset", key, k, v) }`. -/
def appendFields (key : String) : List (String × String) → Conn → Conn
  | [], c => c
  | (k, v) :: rest, c => appendFields key rest (c.Append (.hset key k v))

/-- Go `SetContainerInfo`. -/
def SetContainerInfo (cache : Cache) (container : ContainerInfo) (c : Conn) :
    Option String × Conn :=
  let m := container.fields
  let key := CACHE_PREFIX ++ ":containers:" ++ container.Id
  let c := c.Append .multi
  let c := c.Append (.del key)
  let c := appendFields key m c
  let c := c.Append (.expire key cache.ttlSecs)
  let c := c.Append .exec
  match readReplies (m.length + 4) c with
  | (some e, c) => (some e, c)
  | (none, c) =>
    let key := key ++ ":json"
    match container.json with
    | .error e => (some e, c)
    | .ok b =>
      let c := c.Append .multi
      let c := c.Append (.del key)
      let c := c.Append (.set key b)
      let c := c.Append (.expire key cache.ttlSecs)
      let c := c.Append .exec
      readReplies 5 c

/-- Go `AddContainer`. -/
def AddContainer (cache : Cache) (localts : Int) (container : ContainerInfo) (c : Conn) :
    Option (Option String × Conn) :=
  match SetContainerInfo cache container c with
  | (some e, c) => some (some e, c)
  | (none, c) =>
    let key := CACHE_PREFIX ++ ":hosts:" ++ cache.id
    let (r, c) := c.Cmd (.hincrby key "containers_running" 1)
    match r.Err with
    | some e => some (some e, c)
    | none =>
      match refreshHostLastUpdate cache localts c with
      | none => none
      | some (some e, c) => some (some e, c)
      | some (none, c) =>
        some (none, (publishEvent ["new_container", cache.id, container.Id] c).2)

/-- Go `DeleteContainer`. -/
def DeleteContainer (cache : Cache) (localts : Int) (container : ContainerInfo) (c : Conn) :
    Option (Option String × Conn) :=
  let key := CACHE_PREFIX ++ ":containers:" ++ container.Id
  let c := c.Append .multi
  let c := c.Append (.del key)
  let key := CACHE_PREFIX ++ ":hosts:" ++ cache.id ++ ":containers"
  let c := c.Append (.srem key container.Id)
  let key := CACHE_PREFIX ++ ":hosts:" ++ cache.id
  let c := c.Append (.hincrby key "containers_running" (-1))
  let c := c.Append .exec
  match readReplies 5 c with
  | (some e, c) => some (some e, c)
  | (none, c) =>
    match refreshHostLastUpdate cache localts c with
    | none => none
    | some (some e, c) => some (some e, c)
    | some (none, c) =>
      some (none, (publishEvent ["delete_container", cache.id, container.Id] c).2)

/-- The loop `for _, container := range containers { c.Append("sadd", key,
container.Id) }`. -/
def appendMembers (key : String) : List Container → Conn → Conn
  | [], c => c
  | container :: rest, c => appendMembers key rest (c.Append (.sadd key container.Id))

/-- Go `SetContainersList`. -/
def SetContainersList (cache : Cache) (localts : Int) (containers : List Container) (c : Conn) :
    Option (Option String × Conn) :=
  let key := CACHE_PREFIX ++ ":hosts:" ++ cache.id ++ ":containers"
  let c := c.Append .multi
  let c := c.Append (.del key)
  let c := appendMembers key containers c
  let c := c.Append (.expire key cache.ttlSecs)
  let c := c.Append .exec
  match readReplies (containers.length + 4) c with
  | (some e, c) => some (some e, c)
  | (none, c) =>
    match SetHostParam cache "containers_running" (formatInt containers.length) c with
    | (some e, c) => some (some e, c)
    | (none, c) =>
      match SetHostParam cache "update_interval" (formatInt cache.ttlSecs) c with
      | (some e, c) => some (some e, c)
      | (none, c) =>
        match refreshHostLastUpdate cache localts c with
        | none => none
        | some (some e, c) => some (some e, c)
        | some (none, c) =>
          let key := CACHE_PREFIX ++ ":hosts:" ++ cache.id
          let (_, c) := c.Cmd (.expire key cache.ttlSecs)
          let key := CACHE_PREFIX ++ ":hosts"
          let (r, c) := c.Cmd (.sadd key cache.id)
          match r.Err with
          | some e => some (some e, c)
          | none =>
            let (r, c) := c.Cmd (.expire key cache.ttlSecs)
            match r.Err with
            | some e => some (some e, c)
            | none => some (none, (publishEvent ["refresh_containers", cache.id] c).2)

/-! ## cache.go: NewCache -/

/-- Go `strconv.Atoi` on a 64-bit platform: the value and the error.  A text
that is no number gives 0 with a syntax error; a number out of range gives the
nearest `int64` with a range error. -/
def goAtoi (s : String) : Int × Option String :=
  let syntaxErr := some ("strconv.Atoi: parsing \"" ++ s ++ "\": invalid syntax")
  let rangeErr := some ("strconv.Atoi: parsing \"" ++ s ++ "\": value out of range")
  match s.data with
  | [] => (0, syntaxErr)
  | '-' :: [] => (0, syntaxErr)
  | '+' :: [] => (0, syntaxErr)
  | '-' :: cs =>
    match parseDigits cs 0 with
    | none => (0, syntaxErr)
    | some n => if -(n : Int) < INT64_MIN then (INT64_MIN, rangeErr) else (-(n : Int), none)
  | '+' :: cs =>
    match parseDigits cs 0 with
    | none => (0, syntaxErr)
    | some n => if INT64_MAX < (n : Int) then (INT64_MAX, rangeErr) else ((n : Int), none)
  | cs =>
    match parseDigits cs 0 with
    | none => (0, syntaxErr)
    | some n => if INT64_MAX < (n : Int) then (INT64_MAX, rangeErr) else ((n : Int), none)

/-- The `User` part of a parsed URL: the name and, when one is given, the
password. -/
structure Userinfo where
  username : String
  password : Option String

/-- What `NewCache` uses of the `url.URL` that `url.Parse` returns. -/
structure URL where
  Host : String
  Path : String
  User : Option Userinfo

/-- Go `NewCache`.  `parse` stands for `url.Parse` and `dial` for
`redis.DialTimeout("tcp", host, 30s)`; `u.Path[1:]` is the path without its
first character, the slash. -/
def NewCache (parse : String → Except String URL) (dial : String → Except String Conn)
    (cacheUrl id : String) (ttl : Int) : Except String (Cache × Conn) :=
  match parse cacheUrl with
  | .error e => .error e
  | .ok u =>
    match dial u.Host with
    | .error e => .error e
    | .ok redisConn =>
      let afterSelect : Except String Conn :=
        if u.Path.utf8ByteSize > 2 then
          let (db, err) := goAtoi (u.Path.drop 1)
          if err = none then .error "Wrong Redis db: %!s(<nil>)"
          else
            let (r, c) := redisConn.Cmd (.select db)
            match r.Err with
            | some e => .error e
            | none => .ok c
        else .ok redisConn
      match afterSelect with
      | .error e => .error e
      | .ok redisConn =>
        let afterAuth : Except String Conn :=
          match u.User with
          | some user =>
            match user.password with
            | some pwd =>
              let (r, c) := redisConn.Cmd (.auth pwd)
              match r.Err with
              | some e => .error e
              | none => .ok c
            | none => .ok redisConn
          | none => .ok redisConn
        match afterAuth with
        | .error e => .error e
        | .ok redisConn =>
          let cache : Cache := ⟨id, ttl⟩
          .ok (cache, (publishEvent ["new_host", id] redisConn).2)

/-! ## docker_cache.go -/

/-- What `update` uses of the reply of `Version`. -/
structure DockerVersion where
  Version : String
  GitCommit : String
  GoVersion : String

/-- The Docker client as `update` sees it: the results of `ListContainers`,
of `InspectContainer` for each id and of `Version`. -/
structure Docker where
  ListContainers : Except String (List Container)
  InspectContainer : String → Except String ContainerInfo
  Version : Except String DockerVersion

/-- The loop of `update` over the listed containers: the error of a failed
`SetContainerInfo`, if any, and the connection. -/
def updateLoop (cache : Cache) (docker : Docker) : List Container → Conn → Option String × Conn
  | [], c => (none, c)
  | container :: rest, c =>
    match docker.InspectContainer container.Id with
    | .error _ => updateLoop cache docker rest c
    | .ok containerInfo =>
      match SetContainerInfo cache containerInfo c with
      | (some e, c) => (some e, c)
      | (none, c) => updateLoop cache docker rest c

/-- Go `update`: the lines it logs and the connection afterwards. -/
def update (cache : Cache) (localts : Int) (docker : Docker) (c : Conn) :
    Option (List String × Conn) :=
  match docker.ListContainers with
  | .error e => some (["Cannot list Docker containers: " ++ e ++ " (will retry later)"], c)
  | .ok containers =>
    match updateLoop cache docker containers c with
    | (some e, c) => some (["Cannot write in the Cache (SetContainerInfo): " ++ e], c)
    | (none, c) =>
      match SetContainersList cache localts containers c with
      | none => none
      | some (some e, c) => some (["Cannot write in the Cache (SetContainersList): " ++ e], c)
      | some (none, c) =>
        let reported := "Reported " ++ toString containers.length ++ " containers to the Cache"
        match docker.Version with
        | .error e => some ([reported, "Cannot get Docker's version: " ++ e], c)
        | .ok version =>
          let versionString :=
            version.Version ++ ";git-" ++ version.GitCommit ++ ";" ++ version.GoVersion
          some ([reported], (SetHostParam cache "docker_version" versionString c).2)

/-- The `Config` struct; `UpdateInterval` is a `time.Duration` in nanoseconds. -/
structure Config where
  Id : String
  CacheURL : String
  DockerURL : String
  UpdateInterval : Int

/-- The time to live `main` hands to `NewCache`:
`time.Duration(float64(config.UpdateInterval) * 1.5)`.  The product is exact in
`float64` for intervals below 2^52 ns (about 52 days); the conversion truncates
towards zero. -/
def mainTtl (config : Config) : Int := Int.tdiv (config.UpdateInterval * 3) 2

/-! ## Auxiliary definitions for the statements -/

/-- A command the server queues inside a transaction. -/
def Command.queueable : Command → Bool
  | .multi => false
  | .exec => false
  | _ => true

/-- Members of the set held at a key; no member when the key is absent or holds
another type. -/
def members : Option Entry → List String
  | some ⟨.set ms, _⟩ => ms
  | _ => []

/-- Value of a hash field at a key; `none` when the key is absent, holds
another type or has no such field. -/
def field (e : Option Entry) (f : String) : Option String :=
  match e with
  | some ⟨.hash fs, _⟩ => hashGet fs f
  | _ => none

/-- The key a command writes, if any. -/
def Command.target : Command → Option String
  | .hset k _ _ => some k
  | .hincrby k _ _ => some k
  | .del k => some k
  | .srem k _ => some k
  | .sadd k _ => some k
  | .expire k _ => some k
  | .set k _ => some k
  | _ => none

/-- The commands queued by the transaction of `SetContainersList`. -/
def listTxn (cache : Cache) (containers : List Container) : List Command :=
  Command.del (hostContainersKey cache.id)
    :: ((containers.map fun x => Command.sadd (hostContainersKey cache.id) x.Id)
        ++ [Command.expire (hostContainersKey cache.id) cache.ttlSecs])

/-- The commands `SetContainersList` sends one by one after its transaction. -/
def listTail (cache : Cache) (localts : Int) (containers : List Container) : List Command :=
  [ .hset (hostKey cache.id) "containers_running" (formatInt containers.length),
    .hset (hostKey cache.id) "update_interval" (formatInt cache.ttlSecs),
    .hset (hostKey cache.id) "last_update" (formatInt localts),
    .expire (hostKey cache.id) cache.ttlSecs,
    .sadd hostsKey cache.id,
    .expire hostsKey cache.ttlSecs,
    .publish EVENTS_CHANNEL (String.intercalate ":" ["refresh_containers", cache.id]) ]

/-- The key is absent or holds a set. -/
def setOrAbsent (e : Option Entry) : Prop :=
  e = none ∨ ∃ ms t, e = some ⟨.set ms, t⟩

/-- A server with no key and no message, sixteen databases, no password, whose
`time` answers 1700000000. -/
def Store.empty : Store := ⟨fun _ => none, [], some 1700000000, 0, 16, none⟩

/-- The integer `ClearExpiredHosts` reads from field `f` of a host's record:
the record must be a hash, have the field, and the text must parse. -/
def readInt (s : Store) (host f : String) : Option Int :=
  (field (s.data (hostKey host)) f).bind goParseInt

/-- The commands that delete a host and announce it. -/
def expireCmds (host : String) : List Command :=
  [ .srem hostsKey host, .del (hostKey host), .del (hostContainersKey host),
    .publish EVENTS_CHANNEL ("expired_host:" ++ host) ]

/-- The store after the iteration of `ClearExpiredHosts` for `host`. -/
def gcStep (cache : Cache) (now : Int) (host : String) (s : Store) : Store :=
  if host = cache.id then s
  else
    match readInt s host "last_update", readInt s host "update_interval" with
    | some lu, some ui =>
      if wrap64 (now - lu) < wrap64 (2 * ui) then s else (s.runAll (expireCmds host)).2
    | _, _ => s

/-- The store after the iterations for a list of hosts. -/
def gcFold (cache : Cache) (now : Int) (hosts : List String) (s : Store) : Store :=
  hosts.foldl (fun s g => gcStep cache now g s) s

/-- A server holding the listed keys (first binding of a key wins), with no
message published, sixteen databases, no password and `time` at 1700000000. -/
def Store.ofList (kvs : List (String × Entry)) : Store :=
  ⟨fun k => (kvs.find? fun p => p.1 = k).map Prod.snd, [], some 1700000000, 0, 16, none⟩

/-- The store of the expiry scenario: hosts `h1` and `h2`, `h2` last updated at
0 with update interval 5 and one container. -/
def Store.scenario : Store :=
  Store.ofList
    [ ("docker:hosts", ⟨.set ["h1", "h2"], some 15⟩),
      ("docker:hosts:h1", ⟨.hash [("containers_running", "0"), ("update_interval", "15"),
          ("last_update", "0")], some 15⟩),
      ("docker:hosts:h2", ⟨.hash [("containers_running", "1"), ("update_interval", "5"),
          ("last_update", "0")], some 7⟩),
      ("docker:hosts:h2:containers", ⟨.set ["c9"], some 7⟩) ]

/-- A store where host `a` is stale and a second process runs under the id
`a:containers`, whose record lies at the key of the container set of `a`. -/
def Store.aliased : Store :=
  Store.ofList
    [ ("docker:hosts", ⟨.set ["a", "a:containers"], some 15⟩),
      ("docker:hosts:a", ⟨.hash [("update_interval", "1"), ("last_update", "0")], none⟩),
      ("docker:hosts:a:containers", ⟨.hash [("containers_running", "0"),
          ("update_interval", "15"), ("last_update", "100")], some 15⟩) ]

/-- The scenario store with a third host `h3` whose `last_update` is no
integer. -/
def Store.garbled : Store :=
  Store.ofList
    [ ("docker:hosts", ⟨.set ["h1", "h2", "h3"], some 15⟩),
      ("docker:hosts:h2", ⟨.hash [("containers_running", "1"), ("update_interval", "5"),
          ("last_update", "0")], some 7⟩),
      ("docker:hosts:h3", ⟨.hash [("update_interval", "5"), ("last_update", "soon")], none⟩),
      ("docker:hosts:h3:containers", ⟨.set ["c7"], none⟩) ]

/-- A store where host `a` is stale and has a container set, and the host set
also lists the id `a:containers`, whose record key is that container set. -/
def Store.aliasedSet : Store :=
  Store.ofList
    [ ("docker:hosts", ⟨.set ["a", "a:containers"], some 15⟩),
      ("docker:hosts:a", ⟨.hash [("update_interval", "1"), ("last_update", "0")], none⟩),
      ("docker:hosts:a:containers", ⟨.set ["c1"], none⟩) ]

/-- A store whose host `h2` was last updated at 0 and declares the update
interval 2^62. -/
def Store.hugeInterval : Store :=
  Store.ofList
    [ ("docker:hosts", ⟨.set ["h1", "h2"], some 15⟩),
      ("docker:hosts:h2", ⟨.hash [("update_interval", "4611686018427387904"),
          ("last_update", "0")], none⟩),
      ("docker:hosts:h2:containers", ⟨.set ["c9"], none⟩) ]

/-- The commands queued by the transaction of `DeleteContainer`. -/
def deleteTxn (cache : Cache) (container : ContainerInfo) : List Command :=
  [ .del (containerKey container.Id),
    .srem (hostContainersKey cache.id) container.Id,
    .hincrby (hostKey cache.id) "containers_running" (-1) ]

/-- The commands `DeleteContainer` sends one by one after its transaction. -/
def deleteTail (cache : Cache) (localts : Int) (container : ContainerInfo) : List Command :=
  [ .hset (hostKey cache.id) "last_update" (formatInt localts),
    .publish EVENTS_CHANNEL (String.intercalate ":" ["delete_container", cache.id, container.Id]) ]

/-- The integer `HINCRBY` finds in a field: 0 when the key or the field is
absent, none when the key is no hash or the text is no integer. -/
def countOf (e : Option Entry) (f : String) : Option Int :=
  match e with
  | none => some 0
  | some ⟨.hash fs, _⟩ =>
    match hashGet fs f with
    | none => some 0
    | some t => redisParseInt t
  | some _ => none

/-- A container with the given id, one flattened field and a JSON text. -/
def ContainerInfo.demo (id : String) : ContainerInfo :=
  ⟨id, [("id", id)], .ok ("\"" ++ id ++ "\"")⟩

/-- A store as host `h1` leaves it after a sweep that listed `c1` and `c2`, with
`containers_running` as given. -/
def Store.swept (running : String) : Store :=
  Store.ofList
    [ ("docker:hosts", ⟨.set ["h1"], some 15⟩),
      ("docker:hosts:h1", ⟨.hash [("containers_running", running), ("update_interval", "15"),
          ("last_update", "100")], some 15⟩),
      ("docker:hosts:h1:containers", ⟨.set ["c1", "c2"], some 15⟩),
      ("docker:containers:c1", ⟨.hash [("id", "c1")], some 15⟩),
      ("docker:containers:c2", ⟨.hash [("id", "c2")], some 15⟩) ]

/-- The commands queued by the first transaction of `SetContainerInfo`. -/
def infoTxn (cache : Cache) (container : ContainerInfo) : List Command :=
  Command.del (containerKey container.Id)
    :: ((container.fields.map fun p => Command.hset (containerKey container.Id) p.1 p.2)
        ++ [Command.expire (containerKey container.Id) cache.ttlSecs])

/-- The commands queued by the second transaction of `SetContainerInfo`. -/
def jsonTxn (cache : Cache) (container : ContainerInfo) (b : String) : List Command :=
  [ .del (containerKey container.Id ++ ":json"),
    .set (containerKey container.Id ++ ":json") b,
    .expire (containerKey container.Id ++ ":json") cache.ttlSecs ]

/-- The commands of `SetContainerInfo` in the order the server runs them. -/
def infoCmds (cache : Cache) (container : ContainerInfo) : List Command :=
  match container.json with
  | .error _ => infoTxn cache container
  | .ok b => infoTxn cache container ++ jsonTxn cache container b

/-- The error `SetContainerInfo` returns: that of `json.Marshal`, if any. -/
def infoErr (container : ContainerInfo) : Option String :=
  match container.json with
  | .error e => some e
  | .ok _ => none

/-- A Docker daemon that lists `c1` and `c2`, where `c1` is gone by the time it
is inspected. -/
def Docker.vanishing : Docker :=
  { ListContainers := .ok [⟨"c1"⟩, ⟨"c2"⟩]
    InspectContainer := fun id =>
      if id = "c2" then .ok (ContainerInfo.demo "c2") else .error ("No such container: " ++ id)
    Version := .ok ⟨"1.0", "abcdef", "go1.2"⟩ }

/-- The configuration of the examples: update interval 120 seconds. -/
def Config.default : Config :=
  ⟨"h1", "redis://localhost:6379", "unix:///var/run/docker.sock", 120000000000⟩

/-- The store after host `h1`, started with the default configuration, has
written an empty list at time 1000. -/
def Store.afterDefaultSweep : Store :=
  (Store.empty.runAll
    (listTxn ⟨"h1", mainTtl Config.default⟩ []
      ++ listTail ⟨"h1", mainTtl Config.default⟩ 1000 [])).2

/-! ## The pipeline, the store and the keys -/

theorem handle_queued (c : Conn) (q : List Command) (cmd : Command)
    (hq : c.queued = some q) (hc : cmd.queueable = true) :
    c.handle cmd = (.status "QUEUED", { c with queued := some (q ++ [cmd]) }) := by
  cases cmd <;> simp [Command.queueable] at hc <;> simp [Conn.handle, hq]

theorem handleAll_queued (cmds : List Command) :
    ∀ (c : Conn) (q : List Command), c.queued = some q →
      (∀ x ∈ cmds, x.queueable = true) →
      c.handleAll cmds
        = (cmds.map (fun _ => Reply.status "QUEUED"), { c with queued := some (q ++ cmds) }) := by
  induction cmds with
  | nil => intro c q hq _; simp [Conn.handleAll, ← hq]
  | cons cmd rest ih =>
    intro c q hq hall
    have h1 := handle_queued c q cmd hq (hall cmd (by simp))
    have h2 := ih { c with queued := some (q ++ [cmd]) } (q ++ [cmd]) rfl
      (fun x hx => hall x (by simp [hx]))
    simp [Conn.handleAll, h1, h2]

theorem handleAll_append (a b : List Command) :
    ∀ c : Conn, c.handleAll (a ++ b)
      = ((c.handleAll a).1 ++ ((c.handleAll a).2.handleAll b).1,
         ((c.handleAll a).2.handleAll b).2) := by
  induction a with
  | nil => intro c; simp [Conn.handleAll]
  | cons x rest ih => intro c; simp [Conn.handleAll, ih]

/-- A whole transaction sent in one batch. -/
theorem handleAll_transaction (c : Conn) (cmds : List Command) (hq : c.queued = none)
    (hall : ∀ x ∈ cmds, x.queueable = true) :
    c.handleAll (Command.multi :: (cmds ++ [Command.exec]))
      = (Reply.status "OK" :: (cmds.map (fun _ => Reply.status "QUEUED")
            ++ [Reply.multi (c.server.runAll cmds).1]),
         { c with server := (c.server.runAll cmds).2, queued := none }) := by
  have h2 := handleAll_queued cmds { c with queued := some [] } [] rfl hall
  simp [Conn.handleAll, Conn.handle, hq, handleAll_append, h2]

theorem readReplies_completed (rs : List Reply) :
    ∀ c : Conn, c.completed = rs → (∀ r ∈ rs, r.Err = none) →
      readReplies rs.length c = (none, { c with completed := [] }) := by
  induction rs with
  | nil => intro c hc _; simp [readReplies, ← hc]
  | cons r rest ih =>
    intro c hc hall
    have hr : r.Err = none := hall r (by simp)
    have h2 := ih { c with completed := rest } rfl (fun x hx => hall x (by simp [hx]))
    simp [readReplies, Conn.GetReply, hc, hr, h2]

theorem dropReplies_completed (rs : List Reply) :
    ∀ c : Conn, c.completed = rs →
      dropReplies rs.length c = { c with completed := [] } := by
  induction rs with
  | nil => intro c hc; simp [dropReplies, ← hc]
  | cons r rest ih =>
    intro c hc
    have h2 := ih { c with completed := rest } rfl
    simp [dropReplies, Conn.GetReply, hc, h2]

theorem Err_status (m : String) : (Reply.status m).Err = none := rfl

/-- Reading the replies of a transaction appended on an idle connection:
no reply is an error and the queued commands have run in order. -/
theorem readReplies_transaction (s : Store) (cmds : List Command)
    (hall : ∀ x ∈ cmds, x.queueable = true) :
    readReplies (cmds.length + 2) ⟨s, none, Command.multi :: (cmds ++ [Command.exec]), []⟩
      = (none, Conn.idle (s.runAll cmds).2) := by
  have h := handleAll_transaction ⟨s, none, [], []⟩ cmds rfl hall
  have hlen : cmds.length + 1
      = (cmds.map (fun _ => Reply.status "QUEUED") ++ [Reply.multi (s.runAll cmds).1]).length := by
    simp
  have h2 := readReplies_completed
    (cmds.map (fun _ => Reply.status "QUEUED") ++ [Reply.multi (s.runAll cmds).1])
    ⟨(s.runAll cmds).2, none, [], cmds.map (fun _ => Reply.status "QUEUED")
      ++ [Reply.multi (s.runAll cmds).1]⟩ rfl
    (by
      intro r hr
      simp at hr
      rcases hr with ⟨_, _, rfl⟩ | rfl <;> rfl)
  rw [show cmds.length + 2 = (cmds.length + 1) + 1 from rfl, readReplies]
  simp only [Conn.GetReply]
  simp only [h]
  simp only [Err_status]
  rw [hlen, h2]
  rfl

theorem dropReplies_transaction (s : Store) (cmds : List Command)
    (hall : ∀ x ∈ cmds, x.queueable = true) :
    dropReplies (cmds.length + 2) ⟨s, none, Command.multi :: (cmds ++ [Command.exec]), []⟩
      = Conn.idle (s.runAll cmds).2 := by
  have h := handleAll_transaction ⟨s, none, [], []⟩ cmds rfl hall
  have hlen : cmds.length + 1
      = (cmds.map (fun _ => Reply.status "QUEUED") ++ [Reply.multi (s.runAll cmds).1]).length := by
    simp
  have h2 := dropReplies_completed
    (cmds.map (fun _ => Reply.status "QUEUED") ++ [Reply.multi (s.runAll cmds).1])
    ⟨(s.runAll cmds).2, none, [], cmds.map (fun _ => Reply.status "QUEUED")
      ++ [Reply.multi (s.runAll cmds).1]⟩ rfl
  rw [show cmds.length + 2 = (cmds.length + 1) + 1 from rfl, dropReplies]
  simp only [Conn.GetReply]
  simp only [h]
  rw [hlen, h2]
  rfl

theorem put_data_ne (s : Store) (k x : String) (e : Option Entry) (h : x ≠ k) :
    (s.put k e).data x = s.data x := by
  simp [Store.put, h]

theorem put_data_eq (s : Store) (k : String) (e : Option Entry) :
    (s.put k e).data k = e := by
  simp [Store.put]

/-- A command leaves every key but its target as it was. -/
theorem run_data_ne (s : Store) (cmd : Command) (x : String)
    (h : cmd.target ≠ some x) : (s.run cmd).2.data x = s.data x := by
  cases cmd <;> simp only [Command.target, ne_eq, Option.some.injEq, not_false_eq_true] at h <;>
    simp only [Store.run] <;> (repeat' split) <;>
    first
      | rfl
      | exact put_data_ne _ _ _ _ (fun e => h e.symm)

/-- Only `publish` adds a message. -/
theorem run_published (s : Store) (cmd : Command)
    (h : ∀ ch msg, cmd ≠ .publish ch msg) : (s.run cmd).2.published = s.published := by
  cases cmd <;> simp only [Store.run] <;> (repeat' split) <;>
    first
      | rfl
      | exact absurd rfl (h _ _)

theorem Cmd_idle (s : Store) (cmd : Command) (h : cmd.queueable = true) :
    (Conn.idle s).Cmd cmd = ((s.run cmd).1, Conn.idle (s.run cmd).2) := by
  cases cmd <;> simp [Command.queueable] at h <;> rfl

theorem getHostTimestamp_idle (localts : Int) (s : Store) :
    getHostTimestamp localts (Conn.idle s) = some (localts, Conn.idle s) := by
  unfold getHostTimestamp
  rw [Cmd_idle s .time rfl]
  simp only [Store.run]
  cases s.clock <;> rfl

theorem SetHostParam_idle (cache : Cache) (key value : String) (s : Store) :
    SetHostParam cache key value (Conn.idle s)
      = ((s.run (.hset (hostKey cache.id) key value)).1.Err,
         Conn.idle (s.run (.hset (hostKey cache.id) key value)).2) := by
  unfold SetHostParam
  dsimp only
  rw [Cmd_idle s (.hset _ _ _) rfl]
  simp only [hostKey]
  split <;> simp_all

theorem publishEvent_idle (args : List String) (s : Store) :
    publishEvent args (Conn.idle s)
      = (none, Conn.idle { s with published :=
          s.published ++ [(EVENTS_CHANNEL, String.intercalate ":" args)] }) := by
  unfold publishEvent
  dsimp only
  rw [Cmd_idle s (.publish _ _) rfl]
  rfl

theorem refreshHostLastUpdate_idle (cache : Cache) (localts : Int) (s : Store) :
    refreshHostLastUpdate cache localts (Conn.idle s)
      = some (SetHostParam cache "last_update" (formatInt localts) (Conn.idle s)) := by
  unfold refreshHostLastUpdate
  rw [getHostTimestamp_idle]

theorem appendMembers_pending (key : String) (cs : List Container) :
    ∀ c : Conn, appendMembers key cs c
      = { c with pending := c.pending ++ cs.map fun x => Command.sadd key x.Id } := by
  induction cs with
  | nil => intro c; simp [appendMembers]
  | cons x rest ih => intro c; simp [appendMembers, ih, Conn.Append]

theorem appendFields_pending (key : String) (m : List (String × String)) :
    ∀ c : Conn, appendFields key m c
      = { c with pending := c.pending ++ m.map fun p => Command.hset key p.1 p.2 } := by
  induction m with
  | nil => intro c; simp [appendFields]
  | cons x rest ih => intro c; cases x; simp [appendFields, ih, Conn.Append]

theorem listTxn_queueable (cache : Cache) (containers : List Container) :
    ∀ x ∈ listTxn cache containers, x.queueable = true := by
  intro x hx
  simp [listTxn] at hx
  rcases hx with rfl | ⟨_, _, rfl⟩ | rfl <;> rfl

theorem SetContainersList_transaction (cache : Cache) (containers : List Container) (s : Store) :
    readReplies (containers.length + 4)
      ((((appendMembers (CACHE_PREFIX ++ ":hosts:" ++ cache.id ++ ":containers") containers
        (((Conn.idle s).Append .multi).Append
          (.del (CACHE_PREFIX ++ ":hosts:" ++ cache.id ++ ":containers")))).Append
        (.expire (CACHE_PREFIX ++ ":hosts:" ++ cache.id ++ ":containers") cache.ttlSecs)).Append
        .exec))
      = (none, Conn.idle (s.runAll (listTxn cache containers)).2) := by
  have h := readReplies_transaction s (listTxn cache containers) (listTxn_queueable _ _)
  have hlen : (listTxn cache containers).length + 2 = containers.length + 4 := by
    simp [listTxn]
  rw [hlen] at h
  rw [← h]
  simp [appendMembers_pending, Conn.Append, Conn.idle, listTxn, hostContainersKey]

theorem runAll_append (a b : List Command) :
    ∀ s : Store, (s.runAll (a ++ b)).2 = ((s.runAll a).2.runAll b).2 := by
  induction a with
  | nil => intro s; rfl
  | cons x rest ih => intro s; simp [Store.runAll, ih]

theorem runAll_data_ne (cmds : List Command) (x : String) :
    ∀ s : Store, (∀ cmd ∈ cmds, cmd.target ≠ some x) → (s.runAll cmds).2.data x = s.data x := by
  induction cmds with
  | nil => intro s _; rfl
  | cons cmd rest ih =>
    intro s h
    simp only [Store.runAll]
    rw [ih _ (fun y hy => h y (by simp [hy])), run_data_ne _ _ _ (h cmd (by simp))]

/-- The store after `SetContainersList`: the transaction has run, then a prefix
of the single commands; when no error is returned all of them have run and the
three field writes were accepted. -/
theorem SetContainersList_run (cache : Cache) (localts : Int) (containers : List Container)
    (s : Store) (res : Option String) (c' : Conn)
    (h : SetContainersList cache localts containers (Conn.idle s) = some (res, c')) :
    ∃ n, c' = Conn.idle (((s.runAll (listTxn cache containers)).2.runAll
            ((listTail cache localts containers).take n)).2) ∧
      (res = none → n = 7 ∧
        (((s.runAll (listTxn cache containers)).2.runAll
            ((listTail cache localts containers).take 0)).2.run
          (.hset (hostKey cache.id) "containers_running" (formatInt containers.length))).1.Err
            = none ∧
        (((s.runAll (listTxn cache containers)).2.runAll
            ((listTail cache localts containers).take 1)).2.run
          (.hset (hostKey cache.id) "update_interval" (formatInt cache.ttlSecs))).1.Err = none ∧
        (((s.runAll (listTxn cache containers)).2.runAll
            ((listTail cache localts containers).take 2)).2.run
          (.hset (hostKey cache.id) "last_update" (formatInt localts))).1.Err = none) := by
  unfold SetContainersList at h
  dsimp only at h
  rw [SetContainersList_transaction] at h
  generalize (s.runAll (listTxn cache containers)).2 = s1 at h ⊢
  simp only [SetHostParam_idle] at h
  split at h
  · rename_i e c heq
    obtain ⟨-, rfl⟩ := Prod.mk.inj heq
    simp only [Option.some.injEq, Prod.mk.injEq] at h
    obtain ⟨rfl, rfl⟩ := h
    exact ⟨1, rfl, by simp⟩
  · rename_i c heq
    obtain ⟨he1, rfl⟩ := Prod.mk.inj heq
    simp only [SetHostParam_idle] at h
    split at h
    · rename_i e c heq
      obtain ⟨-, rfl⟩ := Prod.mk.inj heq
      simp only [Option.some.injEq, Prod.mk.injEq] at h
      obtain ⟨rfl, rfl⟩ := h
      exact ⟨2, rfl, by simp⟩
    · rename_i c heq
      obtain ⟨he2, rfl⟩ := Prod.mk.inj heq
      simp only [refreshHostLastUpdate_idle, SetHostParam_idle] at h
      split at h
      · simp at h
      · rename_i e c heq
        obtain ⟨-, rfl⟩ := Prod.mk.inj (Option.some.inj heq)
        simp only [Option.some.injEq, Prod.mk.injEq] at h
        obtain ⟨rfl, rfl⟩ := h
        exact ⟨3, rfl, by simp⟩
      · rename_i c heq
        obtain ⟨he3, rfl⟩ := Prod.mk.inj (Option.some.inj heq)
        rw [Cmd_idle _ (.expire _ _) rfl] at h
        dsimp only at h
        rw [Cmd_idle _ (.sadd _ _) rfl] at h
        dsimp only at h
        rw [Cmd_idle _ (.expire _ _) rfl] at h
        dsimp only at h
        rw [publishEvent_idle] at h
        split at h
        · simp only [Option.some.injEq, Prod.mk.injEq] at h
          obtain ⟨rfl, rfl⟩ := h
          exact ⟨5, rfl, by simp⟩
        · split at h
          · simp only [Option.some.injEq, Prod.mk.injEq] at h
            obtain ⟨rfl, rfl⟩ := h
            exact ⟨6, rfl, by simp⟩
          · simp only [Option.some.injEq, Prod.mk.injEq] at h
            obtain ⟨rfl, rfl⟩ := h
            exact ⟨7, rfl, fun _ => ⟨rfl, he1, he2, he3⟩⟩

theorem hostKey_eq (id : String) : hostKey id = "docker:hosts:" ++ id := by
  simp [hostKey, CACHE_PREFIX]

theorem hostContainersKey_eq (id : String) :
    hostContainersKey id = "docker:hosts:" ++ (id ++ ":containers") := by
  simp only [hostContainersKey, CACHE_PREFIX, String.append_assoc]; rfl

theorem hostContainersKey_eq_hostKey (id : String) :
    hostContainersKey id = hostKey (id ++ ":containers") := by
  rw [hostContainersKey_eq, hostKey_eq]

theorem hostsKey_eq : hostsKey = "docker:hosts" := by decide

theorem containerKey_eq (id : String) : containerKey id = "docker:containers:" ++ id := by
  simp [containerKey, CACHE_PREFIX]

theorem append_left_cancel (p a b : String) : p ++ a = p ++ b ↔ a = b := by
  constructor
  · intro h
    have h2 := congrArg String.data h
    simp only [String.data_append] at h2
    exact String.ext (List.append_cancel_left h2)
  · intro h; rw [h]

theorem hostKey_inj (a b : String) : hostKey a = hostKey b ↔ a = b := by
  rw [hostKey_eq, hostKey_eq, append_left_cancel]

theorem hostContainersKey_inj (a b : String) :
    hostContainersKey a = hostContainersKey b ↔ a = b := by
  rw [hostContainersKey_eq_hostKey, hostContainersKey_eq_hostKey, hostKey_inj]
  constructor
  · intro h
    have h2 := congrArg String.data h
    simp only [String.data_append] at h2
    exact String.ext (List.append_cancel_right h2)
  · intro h; rw [h]

theorem hostKey_ne_hostsKey (a : String) : hostKey a ≠ hostsKey := by
  intro h
  have h2 := congrArg String.length h
  rw [hostKey_eq, hostsKey_eq, String.length_append] at h2
  have : "docker:hosts:".length = 13 := by decide
  have : "docker:hosts".length = 12 := by decide
  omega

theorem hostContainersKey_ne_hostsKey (a : String) : hostContainersKey a ≠ hostsKey := by
  rw [hostContainersKey_eq_hostKey]; exact hostKey_ne_hostsKey _

theorem hostKey_ne_hostContainersKey (a : String) : hostKey a ≠ hostContainersKey a := by
  intro h
  have h2 := congrArg String.length h
  rw [hostKey_eq, hostContainersKey_eq, String.length_append, String.length_append,
    String.length_append] at h2
  have : ":containers".length = 11 := by decide
  omega

theorem containerKey_ne_hostKey (a b : String) : containerKey a ≠ hostKey b := by
  intro h
  have h2 := congrArg String.data h
  rw [containerKey_eq, hostKey_eq] at h2
  simp only [String.data_append] at h2
  have h3 := congrArg (fun l => l.get? 7) h2
  simp at h3

theorem containerKey_ne_hostContainersKey (a b : String) :
    containerKey a ≠ hostContainersKey b := by
  rw [hostContainersKey_eq_hostKey]; exact containerKey_ne_hostKey _ _

/-! ## SetContainersList replaces the host's container set -/

theorem run_del_data (s : Store) (k : String) : (s.run (.del k)).2.data k = none := by
  simp only [Store.run]
  split
  · assumption
  · exact put_data_eq _ _ _

theorem run_sadd_members (s : Store) (k m : String) (hs : setOrAbsent (s.data k)) :
    setOrAbsent ((s.run (.sadd k m)).2.data k) ∧
    ∀ x, x ∈ members ((s.run (.sadd k m)).2.data k) ↔ x ∈ members (s.data k) ∨ x = m := by
  rcases hs with h | ⟨ms, t, h⟩
  · simp [Store.run, h, put_data_eq, setOrAbsent, members]
  · by_cases hm : m ∈ ms
    · simp only [Store.run, h, hm, if_true, members]
      refine ⟨Or.inr ⟨ms, t, rfl⟩, fun x => ?_⟩
      constructor
      · exact Or.inl
      · rintro (hx | rfl)
        · exact hx
        · exact hm
    · simp [Store.run, h, hm, put_data_eq, setOrAbsent, members]

theorem runAll_sadd_members (k : String) (ids : List String) :
    ∀ s : Store, setOrAbsent (s.data k) →
      setOrAbsent ((s.runAll (ids.map fun i => Command.sadd k i)).2.data k) ∧
      ∀ x, x ∈ members ((s.runAll (ids.map fun i => Command.sadd k i)).2.data k)
        ↔ x ∈ members (s.data k) ∨ x ∈ ids := by
  induction ids with
  | nil => intro s hs; simpa [Store.runAll] using hs
  | cons i rest ih =>
    intro s hs
    obtain ⟨h1, h2⟩ := run_sadd_members s k i hs
    obtain ⟨h3, h4⟩ := ih _ h1
    simp only [List.map_cons, Store.runAll]
    refine ⟨h3, fun x => ?_⟩
    rw [h4, h2]
    simp [or_assoc]

theorem run_expire_members (s : Store) (k : String) (t : Int) (ht : 1 ≤ t) :
    members ((s.run (.expire k t)).2.data k) = members (s.data k) := by
  simp only [Store.run]
  split
  · rfl
  · rename_i e he
    have : ¬ t ≤ 0 := by omega
    simp only [this, if_false, put_data_eq, he]
    rcases e with ⟨v, _⟩
    cases v <;> rfl

theorem listTxn_members (cache : Cache) (containers : List Container) (s : Store)
    (httl : 1 ≤ cache.ttlSecs) (x : String) :
    x ∈ members ((s.runAll (listTxn cache containers)).2.data (hostContainersKey cache.id))
      ↔ x ∈ containers.map (fun c => c.Id) := by
  have hmap : (containers.map fun c => Command.sadd (hostContainersKey cache.id) c.Id)
      = (containers.map fun c => c.Id).map fun i => Command.sadd (hostContainersKey cache.id) i := by
    simp
  have h0 : setOrAbsent ((s.run (.del (hostContainersKey cache.id))).2.data
      (hostContainersKey cache.id)) := Or.inl (run_del_data _ _)
  obtain ⟨-, h2⟩ := runAll_sadd_members (hostContainersKey cache.id)
    (containers.map fun c => c.Id) _ h0
  simp only [listTxn, Store.runAll, runAll_append, hmap]
  rw [run_expire_members _ _ _ httl, h2, run_del_data]
  simp [members]

theorem listTail_target (cache : Cache) (localts : Int) (containers : List Container) (n : Nat) :
    ∀ cmd ∈ (listTail cache localts containers).take n,
      cmd.target ≠ some (hostContainersKey cache.id) := by
  intro cmd hcmd
  have hmem := List.mem_of_mem_take hcmd
  have h1 := hostKey_ne_hostContainersKey cache.id
  have h2 := (hostContainersKey_ne_hostsKey cache.id).symm
  simp only [listTail, List.mem_cons, List.mem_singleton, List.not_mem_nil, or_false] at hmem
  rcases hmem with rfl | rfl | rfl | rfl | rfl | rfl | rfl <;>
    simp [Command.target, h1, h2]

/-- After a `SetContainersList` that returns no error, with a time to live of
at least one second, the host's container set holds the listed ids. -/
theorem SetContainersList_members (cache : Cache) (localts : Int)
    (containers : List Container) (s : Store) (c' : Conn)
    (httl : 1 ≤ cache.ttlSecs)
    (h : SetContainersList cache localts containers (Conn.idle s) = some (none, c')) (x : String) :
    x ∈ members (c'.server.data (hostContainersKey cache.id))
      ↔ x ∈ containers.map (fun c => c.Id) := by
  obtain ⟨n, rfl, -⟩ := SetContainersList_run cache localts containers s none c' h
  simp only [Conn.idle]
  rw [runAll_data_ne _ _ _ (listTail_target cache localts containers n)]
  exact listTxn_members cache containers s httl x

/-- C1, amended: for a time to live of at least one whole second, every prior
store state and every list of containers, when `SetContainersList` returns
without error the members of the set at `docker:hosts:<id>:containers` are
exactly the ids of the list. -/
theorem SetContainersList_replaces_set (cache : Cache) (localts : Int)
    (containers : List Container) (s : Store) (c' : Conn)
    (httl : 1 ≤ cache.ttlSecs)
    (h : SetContainersList cache localts containers (Conn.idle s) = some (none, c')) :
    ∀ x, x ∈ members (c'.server.data (hostContainersKey cache.id))
      ↔ x ∈ containers.map (fun c => c.Id) :=
  fun x => SetContainersList_members cache localts containers s c' httl h x

theorem SetContainersList_replaces_set_witness :
    (1 : Int) ≤ Cache.ttlSecs ⟨"h1", 15000000000⟩ ∧
    SetContainersList ⟨"h1", 15000000000⟩ 100 [⟨"c1"⟩, ⟨"c2"⟩] (Conn.idle Store.empty)
      = some (none, Conn.idle (Store.empty.runAll
          (listTxn ⟨"h1", 15000000000⟩ [⟨"c1"⟩, ⟨"c2"⟩]
            ++ listTail ⟨"h1", 15000000000⟩ 100 [⟨"c1"⟩, ⟨"c2"⟩])).2) ∧
    ∀ x, x ∈ members ((Conn.idle (Store.empty.runAll
          (listTxn ⟨"h1", 15000000000⟩ [⟨"c1"⟩, ⟨"c2"⟩]
            ++ listTail ⟨"h1", 15000000000⟩ 100 [⟨"c1"⟩, ⟨"c2"⟩])).2).server.data
          (hostContainersKey "h1"))
      ↔ x ∈ ([⟨"c1"⟩, ⟨"c2"⟩] : List Container).map (fun c => c.Id) :=
  ⟨by decide, rfl,
    SetContainersList_replaces_set ⟨"h1", 15000000000⟩ 100 [⟨"c1"⟩, ⟨"c2"⟩] Store.empty _
      (by decide) rfl⟩

/-- C1 as stated fails for a time to live below one second: with `ttl` 750ms
(update interval 500ms) the transaction ends with `expire key 0`, which deletes
the set just written; `SetContainersList` returns no error and the set of host
`h1` has no member. -/
theorem SetContainersList_short_ttl_counterexample :
    Cache.ttlSecs ⟨"h1", 750000000⟩ = 0 ∧
    (SetContainersList ⟨"h1", 750000000⟩ 100 [⟨"c1"⟩] (Conn.idle Store.empty)).map
        (fun r => (r.1, r.2.server.data (hostContainersKey "h1")))
      = some (none, none) ∧
    ¬ ∀ (cache : Cache) (localts : Int) (containers : List Container) (s : Store) (c' : Conn),
        SetContainersList cache localts containers (Conn.idle s) = some (none, c') →
        ∀ x, x ∈ members (c'.server.data (hostContainersKey cache.id))
          ↔ x ∈ containers.map (fun c => c.Id) := by
  refine ⟨by decide, by decide, fun hall => ?_⟩
  have h := hall ⟨"h1", 750000000⟩ 100 [⟨"c1"⟩] Store.empty
    (Conn.idle (Store.empty.runAll
          (listTxn ⟨"h1", 750000000⟩ [⟨"c1"⟩]
            ++ listTail ⟨"h1", 750000000⟩ 100 [⟨"c1"⟩])).2) rfl "c1"
  revert h
  decide

/-! ## ClearExpiredHosts: one pass as a fold over the listed hosts -/

theorem run_hget (s : Store) (k f : String) : (s.run (.hget k f)).2 = s := by
  simp only [Store.run]
  repeat' split
  all_goals rfl

theorem hget_Err_none (s : Store) (host f : String)
    (h : (s.run (.hget (hostKey host) f)).1.Err = none) :
    (match (s.run (.hget (hostKey host) f)).1.Int64 with
      | .ok v => some v
      | .error _ => none) = readInt s host f := by
  simp only [Store.run, readInt, field] at h ⊢
  rcases hd : s.data (hostKey host) with _ | ⟨v, t⟩
  · simp [Reply.Int64]
  · cases v with
    | str x => simp [hd, Reply.Err] at h
    | set x => simp [hd, Reply.Err] at h
    | hash fs =>
      simp only []
      cases hg : hashGet fs f with
      | none => simp [Reply.Int64]
      | some w =>
        simp only [Reply.Int64, Option.some_bind]
        cases goParseInt w <;> rfl

theorem hget_Err_some (s : Store) (host f : String) (e : String)
    (h : (s.run (.hget (hostKey host) f)).1.Err = some e) :
    readInt s host f = none := by
  simp only [Store.run, readInt, field] at h ⊢
  rcases hd : s.data (hostKey host) with _ | ⟨v, t⟩
  · rfl
  · cases v with
    | str x => rfl
    | set x => rfl
    | hash fs =>
      rw [hd] at h
      simp only [] at h
      cases hg : hashGet fs f with
      | none => simp [hg]
      | some w => rw [hg] at h; simp [Reply.Err] at h

theorem deleteHost_key (id : String) : CACHE_PREFIX ++ ":hosts" ++ (":" ++ id) = hostKey id := by
  apply String.ext
  simp [hostKey, CACHE_PREFIX, String.data_append]

theorem deleteHost_idle (host : String) (s : Store) :
    deleteHost host (Conn.idle s)
      = Conn.idle (s.runAll [.srem hostsKey host, .del (hostKey host),
          .del (hostContainersKey host)]).2 := by
  have h := dropReplies_transaction s [.srem hostsKey host, .del (hostKey host),
          .del (hostContainersKey host)] (by intro x hx; simp at hx; rcases hx with rfl | rfl | rfl <;> rfl)
  rw [← h]
  simp only [deleteHost, Conn.Append, Conn.idle, deleteHost_key, List.nil_append, List.cons_append,
    List.length_cons, List.length_nil]
  rfl

theorem clearHost_idle (cache : Cache) (now : Int) (host : String) (s : Store) :
    clearHost cache now host (Conn.idle s) = some (Conn.idle (gcStep cache now host s)) := by
  unfold clearHost gcStep
  by_cases hid : host = cache.id
  · simp [hid]
  · simp only [hid, if_false]
    rw [Cmd_idle _ (.hget _ _) rfl, run_hget]
    dsimp only
    rw [← hostKey]
    cases hE : (s.run (.hget (hostKey host) "last_update")).1.Err with
    | some e => simp only [hget_Err_some s host _ e hE]
    | none =>
      have h1 := hget_Err_none s host _ hE
      simp only []
      cases hI : (s.run (.hget (hostKey host) "last_update")).1.Int64 with
      | error e => rw [hI] at h1; simp only [← h1]
      | ok lu =>
        rw [hI] at h1
        simp only [← h1]
        rw [Cmd_idle _ (.hget _ _) rfl, run_hget]
        dsimp only
        cases hE2 : (s.run (.hget (hostKey host) "update_interval")).1.Err with
        | some e => simp only [hget_Err_some s host _ e hE2]
        | none =>
          have h2 := hget_Err_none s host _ hE2
          simp only []
          cases hI2 : (s.run (.hget (hostKey host) "update_interval")).1.Int64 with
          | error e => rw [hI2] at h2; simp only [← h2]
          | ok ui =>
            rw [hI2] at h2
            simp only [← h2, getHostTimestamp_idle]
            split
            · rfl
            · rw [deleteHost_idle, publishEvent_idle]
              rfl

theorem clearHosts_idle (cache : Cache) (now : Int) (hosts : List String) :
    ∀ s : Store, clearHosts cache now hosts (Conn.idle s)
      = some (Conn.idle (gcFold cache now hosts s)) := by
  induction hosts with
  | nil => intro s; rfl
  | cons g rest ih =>
    intro s
    simp only [clearHosts, clearHost_idle, ih, gcFold, List.foldl_cons]

theorem List_multi_bulk (ms : List String) :
    (Reply.multi (ms.map Reply.bulk)).List = .ok ms := by
  simp only [Reply.List]
  induction ms with
  | nil => rfl
  | cons m rest ih => simp only [List.map_cons, List.foldr_cons, ih]

theorem ClearExpiredHosts_idle (cache : Cache) (now : Int) (s : Store)
    (hs : setOrAbsent (s.data hostsKey)) :
    ClearExpiredHosts cache now (Conn.idle s)
      = some (none, Conn.idle (gcFold cache now (members (s.data hostsKey)) s)) := by
  unfold ClearExpiredHosts
  rw [← hostsKey, Cmd_idle _ (.smembers _) rfl]
  rcases hs with h | ⟨ms, t, h⟩
  · simp only [Store.run, h, members, Reply.Err]
    rfl
  · simp only [Store.run, h, members, Reply.Err, List_multi_bulk, clearHosts_idle]
    rfl

theorem ClearExpiredHosts_wrongtype (cache : Cache) (now : Int) (s : Store)
    (hs : ¬ setOrAbsent (s.data hostsKey)) :
    ClearExpiredHosts cache now (Conn.idle s) = some (some WRONGTYPE, Conn.idle s) := by
  unfold ClearExpiredHosts
  rw [← hostsKey, Cmd_idle _ (.smembers _) rfl]
  rcases hd : s.data hostsKey with _ | ⟨v, t⟩
  · exact absurd (Or.inl hd) hs
  · cases v with
    | set ms => exact absurd (Or.inr ⟨ms, t, hd⟩) hs
    | str x => simp only [Store.run, hd, Reply.Err]
    | hash x => simp only [Store.run, hd, Reply.Err]

theorem run_srem_members (s : Store) (k m : String) :
    members ((s.run (.srem k m)).2.data k) = (members (s.data k)).filter (fun x => x ≠ m) := by
  simp only [Store.run]
  rcases hd : s.data k with _ | ⟨v, t⟩
  · simp [members, hd]
  · cases v with
    | str x => simp [members, hd]
    | hash x => simp [members, hd]
    | set ms =>
      simp only []
      by_cases hm : m ∈ ms
      · simp only [hm, if_true, put_data_eq]
        by_cases he : ms.filter (fun x => x ≠ m) = []
        · simp only [he, if_true, members]
        · simp only [he, if_false, members]
      · simp only [hm, if_false, hd, members]
        symm
        rw [List.filter_eq_self]
        intro a ha
        simp only [ne_eq, decide_eq_true_eq]
        rintro rfl
        exact hm ha

theorem run_absent (s : Store) (cmd : Command) (k : String) (h : s.data k = none)
    (hc : (∃ x m, cmd = .srem x m) ∨ (∃ x, cmd = .del x) ∨ ∃ ch msg, cmd = .publish ch msg) :
    (s.run cmd).2.data k = none := by
  rcases hc with ⟨x, m, rfl⟩ | ⟨x, rfl⟩ | ⟨ch, msg, rfl⟩
  · by_cases hk : k = x
    · subst hk
      simp [Store.run, h]
    · rw [run_data_ne _ _ _ (by simp [Command.target]; exact fun e => hk e.symm), h]
  · by_cases hk : k = x
    · subst hk; exact run_del_data _ _
    · rw [run_data_ne _ _ _ (by simp [Command.target]; exact fun e => hk e.symm), h]
  · exact h

theorem expire_data_ne (s : Store) (g k : String) (h0 : k ≠ hostsKey) (h1 : k ≠ hostKey g)
    (h2 : k ≠ hostContainersKey g) : (s.runAll (expireCmds g)).2.data k = s.data k := by
  apply runAll_data_ne
  intro cmd hcmd
  simp only [expireCmds, List.mem_cons, List.mem_singleton, List.not_mem_nil, or_false] at hcmd
  rcases hcmd with rfl | rfl | rfl | rfl <;> simp [Command.target] <;>
    first | exact fun e => h0 e.symm | exact fun e => h1 e.symm | exact fun e => h2 e.symm

theorem expire_absent (s : Store) (g k : String) (h : s.data k = none) :
    (s.runAll (expireCmds g)).2.data k = none := by
  simp only [expireCmds, Store.runAll]
  apply run_absent _ _ _ _ (Or.inr (Or.inr ⟨_, _, rfl⟩))
  apply run_absent _ _ _ _ (Or.inr (Or.inl ⟨_, rfl⟩))
  apply run_absent _ _ _ _ (Or.inr (Or.inl ⟨_, rfl⟩))
  exact run_absent _ _ _ h (Or.inl ⟨_, _, rfl⟩)

theorem expire_hostKey (s : Store) (g : String) :
    (s.runAll (expireCmds g)).2.data (hostKey g) = none := by
  simp only [expireCmds, Store.runAll]
  apply run_absent _ _ _ _ (Or.inr (Or.inr ⟨_, _, rfl⟩))
  apply run_absent _ _ _ _ (Or.inr (Or.inl ⟨_, rfl⟩))
  exact run_del_data _ _

theorem expire_hostContainersKey (s : Store) (g : String) :
    (s.runAll (expireCmds g)).2.data (hostContainersKey g) = none := by
  simp only [expireCmds, Store.runAll]
  apply run_absent _ _ _ _ (Or.inr (Or.inr ⟨_, _, rfl⟩))
  exact run_del_data _ _

theorem expire_members (s : Store) (g : String) :
    members ((s.runAll (expireCmds g)).2.data hostsKey)
      = (members (s.data hostsKey)).filter (fun x => x ≠ g) := by
  have h1 : ∀ t : Store, (t.run (.del (hostKey g))).2.data hostsKey = t.data hostsKey :=
    fun t => run_data_ne _ _ _ (by simp [Command.target]; exact hostKey_ne_hostsKey g)
  have h2 : ∀ t : Store, (t.run (.del (hostContainersKey g))).2.data hostsKey = t.data hostsKey :=
    fun t => run_data_ne _ _ _ (by simp [Command.target]; exact hostContainersKey_ne_hostsKey g)
  have h3 : ∀ (t : Store) ch msg, (t.run (.publish ch msg)).2.data hostsKey = t.data hostsKey :=
    fun t ch msg => rfl
  simp only [expireCmds, Store.runAll, h1, h2, h3, run_srem_members]

theorem expire_published (s : Store) (g : String) :
    (s.runAll (expireCmds g)).2.published
      = s.published ++ [(EVENTS_CHANNEL, "expired_host:" ++ g)] := by
  have h1 : ∀ (t : Store) k, (t.run (.del k)).2.published = t.published :=
    fun t k => run_published _ _ (by intro _ _ h; cases h)
  have h2 : ∀ (t : Store) k m, (t.run (.srem k m)).2.published = t.published :=
    fun t k m => run_published _ _ (by intro _ _ h; cases h)
  have h3 : ∀ (t : Store) ch msg,
      (t.run (.publish ch msg)).2.published = t.published ++ [(ch, msg)] := fun t ch msg => rfl
  simp only [expireCmds, Store.runAll, h3, h1, h2]

theorem gcStep_cases (cache : Cache) (now : Int) (g : String) (s : Store) :
    gcStep cache now g s = s ∨
    (g ≠ cache.id ∧ gcStep cache now g s = (s.runAll (expireCmds g)).2) := by
  unfold gcStep
  by_cases hid : g = cache.id
  · simp [hid]
  · simp only [hid, if_false]
    split
    · split
      · exact Or.inl rfl
      · exact Or.inr ⟨by simpa using hid, rfl⟩
    · exact Or.inl rfl

theorem gcStep_frame (cache : Cache) (now : Int) (g : String) (s : Store) (k : String)
    (h0 : k ≠ hostsKey) (h1 : g ≠ cache.id → k ≠ hostKey g ∧ k ≠ hostContainersKey g) :
    (gcStep cache now g s).data k = s.data k := by
  rcases gcStep_cases cache now g s with h | ⟨hid, h⟩
  · rw [h]
  · rw [h, expire_data_ne s g k h0 (h1 hid).1 (h1 hid).2]

theorem gcStep_absent (cache : Cache) (now : Int) (g : String) (s : Store) (k : String)
    (hk : s.data k = none) : (gcStep cache now g s).data k = none := by
  rcases gcStep_cases cache now g s with h | ⟨-, h⟩
  · rw [h, hk]
  · rw [h, expire_absent s g k hk]

theorem gcStep_data_or_none (cache : Cache) (now : Int) (g : String) (s : Store) (k : String)
    (h0 : k ≠ hostsKey) :
    (gcStep cache now g s).data k = s.data k ∨ (gcStep cache now g s).data k = none := by
  rcases gcStep_cases cache now g s with h | ⟨-, h⟩
  · rw [h]; exact Or.inl rfl
  · rw [h]
    by_cases h1 : k = hostKey g
    · rw [h1]; exact Or.inr (expire_hostKey s g)
    · by_cases h2 : k = hostContainersKey g
      · rw [h2]; exact Or.inr (expire_hostContainersKey s g)
      · exact Or.inl (expire_data_ne s g k h0 h1 h2)

theorem gcStep_mem_sub (cache : Cache) (now : Int) (g : String) (s : Store) (x : String)
    (hx : x ∈ members ((gcStep cache now g s).data hostsKey)) :
    x ∈ members (s.data hostsKey) := by
  rcases gcStep_cases cache now g s with h | ⟨-, h⟩
  · rwa [h] at hx
  · rw [h, expire_members] at hx
    exact (List.mem_filter.mp hx).1

theorem gcStep_mem_keep (cache : Cache) (now : Int) (g : String) (s : Store) (x : String)
    (hne : g ≠ cache.id → g ≠ x) (hx : x ∈ members (s.data hostsKey)) :
    x ∈ members ((gcStep cache now g s).data hostsKey) := by
  rcases gcStep_cases cache now g s with h | ⟨hid, h⟩
  · rwa [h]
  · rw [h, expire_members]
    exact List.mem_filter.mpr ⟨hx, by simpa using fun e => hne hid e.symm⟩

theorem gcStep_published (cache : Cache) (now : Int) (g : String) (s : Store) :
    (gcStep cache now g s).published = s.published ∨
    (g ≠ cache.id ∧ (gcStep cache now g s).published
      = s.published ++ [(EVENTS_CHANNEL, "expired_host:" ++ g)]) := by
  rcases gcStep_cases cache now g s with h | ⟨hid, h⟩
  · rw [h]; exact Or.inl rfl
  · rw [h]; exact Or.inr ⟨hid, expire_published s g⟩

theorem gcFold_cons (cache : Cache) (now : Int) (g : String) (rest : List String) (s : Store) :
    gcFold cache now (g :: rest) s = gcFold cache now rest (gcStep cache now g s) := rfl

theorem gcFold_frame (cache : Cache) (now : Int) (k : String) (h0 : k ≠ hostsKey)
    (hosts : List String) :
    ∀ s : Store, (∀ g ∈ hosts, g ≠ cache.id → k ≠ hostKey g ∧ k ≠ hostContainersKey g) →
      (gcFold cache now hosts s).data k = s.data k := by
  induction hosts with
  | nil => intro s _; rfl
  | cons g rest ih =>
    intro s h
    rw [gcFold_cons, ih _ (fun x hx => h x (by simp [hx])),
      gcStep_frame cache now g s k h0 (h g (by simp))]

theorem gcFold_absent (cache : Cache) (now : Int) (k : String) (hosts : List String) :
    ∀ s : Store, s.data k = none → (gcFold cache now hosts s).data k = none := by
  induction hosts with
  | nil => intro s h; exact h
  | cons g rest ih =>
    intro s h
    rw [gcFold_cons]
    exact ih _ (gcStep_absent cache now g s k h)

theorem gcFold_mem_sub (cache : Cache) (now : Int) (x : String) (hosts : List String) :
    ∀ s : Store, x ∈ members ((gcFold cache now hosts s).data hostsKey) →
      x ∈ members (s.data hostsKey) := by
  induction hosts with
  | nil => intro s h; exact h
  | cons g rest ih =>
    intro s h
    rw [gcFold_cons] at h
    exact gcStep_mem_sub cache now g s x (ih _ h)

theorem gcFold_mem_keep (cache : Cache) (now : Int) (x : String) (hosts : List String) :
    ∀ s : Store, (∀ g ∈ hosts, g ≠ cache.id → g ≠ x) → x ∈ members (s.data hostsKey) →
      x ∈ members ((gcFold cache now hosts s).data hostsKey) := by
  induction hosts with
  | nil => intro s _ h; exact h
  | cons g rest ih =>
    intro s hne h
    rw [gcFold_cons]
    exact ih _ (fun y hy => hne y (by simp [hy]))
      (gcStep_mem_keep cache now g s x (hne g (by simp)) h)

/-- The messages a pass publishes are `expired_host` events of listed hosts
other than the caller. -/
theorem gcFold_published (cache : Cache) (now : Int) (hosts : List String) :
    ∀ s : Store, ∃ evs, (gcFold cache now hosts s).published = s.published ++ evs ∧
      ∀ e ∈ evs, ∃ g ∈ hosts, g ≠ cache.id ∧ e = (EVENTS_CHANNEL, "expired_host:" ++ g) := by
  induction hosts with
  | nil => intro s; exact ⟨[], by simp [gcFold], by simp⟩
  | cons g rest ih =>
    intro s
    obtain ⟨evs, h1, h2⟩ := ih (gcStep cache now g s)
    rw [gcFold_cons]
    rcases gcStep_published cache now g s with hp | ⟨hid, hp⟩
    · refine ⟨evs, by rw [h1, hp], fun e he => ?_⟩
      obtain ⟨y, hy, hy2⟩ := h2 e he
      exact ⟨y, by simp [hy], hy2⟩
    · refine ⟨(EVENTS_CHANNEL, "expired_host:" ++ g) :: evs, by rw [h1, hp]; simp, fun e he => ?_⟩
      rcases List.mem_cons.mp he with rfl | he
      · exact ⟨g, by simp, hid, rfl⟩
      · obtain ⟨y, hy, hy2⟩ := h2 e he
        exact ⟨y, by simp [hy], hy2⟩

theorem expired_msg_inj (g h : String) :
    (EVENTS_CHANNEL, "expired_host:" ++ g) = (EVENTS_CHANNEL, "expired_host:" ++ h) ↔ g = h := by
  simp [append_left_cancel]

/-! ## ClearExpiredHosts spares the caller -/

theorem hostKey_ne_of_ne (h g : String) (hgh : g ≠ h) : hostKey h ≠ hostKey g :=
  fun e => hgh ((hostKey_inj h g).mp e).symm

theorem hostKey_ne_containers (h g : String) (ha : g ++ ":containers" ≠ h) :
    hostKey h ≠ hostContainersKey g := by
  rw [hostContainersKey_eq_hostKey]
  exact fun e => ha ((hostKey_inj _ _).mp e).symm

theorem containers_ne_hostKey (h g : String) (hb : g ≠ h ++ ":containers") :
    hostContainersKey h ≠ hostKey g := by
  rw [hostContainersKey_eq_hostKey]
  exact fun e => hb ((hostKey_inj _ _).mp e).symm

theorem containers_ne_of_ne (h g : String) (hgh : g ≠ h) :
    hostContainersKey h ≠ hostContainersKey g :=
  fun e => hgh ((hostContainersKey_inj h g).mp e).symm

/-- The outcome of `ClearExpiredHosts` on an idle connection: the pass never
panics; it either folds over the members of the host set or reports the wrong
type of the key and leaves the store as it was. -/
theorem ClearExpiredHosts_total (cache : Cache) (now : Int) (s : Store) :
    (setOrAbsent (s.data hostsKey) ∧ ClearExpiredHosts cache now (Conn.idle s)
        = some (none, Conn.idle (gcFold cache now (members (s.data hostsKey)) s))) ∨
    (members (s.data hostsKey) = [] ∧
      ClearExpiredHosts cache now (Conn.idle s) = some (some WRONGTYPE, Conn.idle s)) := by
  by_cases hs : setOrAbsent (s.data hostsKey)
  · exact Or.inl ⟨hs, ClearExpiredHosts_idle cache now s hs⟩
  · refine Or.inr ⟨?_, ClearExpiredHosts_wrongtype cache now s hs⟩
    rcases hd : s.data hostsKey with _ | ⟨v, t⟩
    · rfl
    · cases v with
      | set ms => exact absurd (Or.inr ⟨ms, t, hd⟩) hs
      | str x => rfl
      | hash x => rfl

/-- C3, amended: for every store state and every sync time a pass of
`ClearExpiredHosts` returns, keeps the caller's own id in the host set when it
was there and publishes no `expired_host:<cache.id>`; the caller's record and
container set are left as they were provided no other listed host id is the
caller's id with `:containers` appended or removed (such ids share a key with
the caller). -/
theorem ClearExpiredHosts_spares_self (cache : Cache) (now : Int) (s : Store) :
    ∃ r c', ClearExpiredHosts cache now (Conn.idle s) = some (r, c') ∧
      (cache.id ∈ members (s.data hostsKey) → cache.id ∈ members (c'.server.data hostsKey)) ∧
      (∃ evs, c'.server.published = s.published ++ evs ∧
        (EVENTS_CHANNEL, "expired_host:" ++ cache.id) ∉ evs) ∧
      ((∀ g ∈ members (s.data hostsKey), g ≠ cache.id →
          g ++ ":containers" ≠ cache.id ∧ g ≠ cache.id ++ ":containers") →
        c'.server.data (hostKey cache.id) = s.data (hostKey cache.id) ∧
        c'.server.data (hostContainersKey cache.id) = s.data (hostContainersKey cache.id)) := by
  rcases ClearExpiredHosts_total cache now s with ⟨-, h⟩ | ⟨-, h⟩
  · refine ⟨_, _, h, ?_, ?_, ?_⟩
    · exact gcFold_mem_keep cache now cache.id _ s (fun g _ hg => hg)
    · obtain ⟨evs, h1, h2⟩ := gcFold_published cache now (members (s.data hostsKey)) s
      refine ⟨evs, h1, fun hmem => ?_⟩
      obtain ⟨g, -, hg, he⟩ := h2 _ hmem
      exact hg ((expired_msg_inj _ _).mp he).symm
    · intro hal
      constructor
      · exact gcFold_frame cache now _ (hostKey_ne_hostsKey _) _ s
          (fun g hg hid => ⟨hostKey_ne_of_ne _ _ hid, hostKey_ne_containers _ _ (hal g hg hid).1⟩)
      · exact gcFold_frame cache now _ (hostContainersKey_ne_hostsKey _) _ s
          (fun g hg hid => ⟨containers_ne_hostKey _ _ (hal g hg hid).2,
            containers_ne_of_ne _ _ hid⟩)
  · exact ⟨_, _, h, fun hm => hm, ⟨[], by simp [Conn.idle], by simp⟩, fun _ => ⟨rfl, rfl⟩⟩

theorem ClearExpiredHosts_spares_self_witness :
    ∃ r c', ClearExpiredHosts ⟨"h1", 15000000000⟩ 11 (Conn.idle Store.scenario) = some (r, c') ∧
      "h1" ∈ members (c'.server.data hostsKey) ∧
      c'.server.data (hostKey "h1") = Store.scenario.data (hostKey "h1") ∧
      c'.server.data (hostContainersKey "h1") = Store.scenario.data (hostContainersKey "h1") := by
  obtain ⟨r, c', h, h1, -, h3⟩ :=
    ClearExpiredHosts_spares_self ⟨"h1", 15000000000⟩ 11 Store.scenario
  exact ⟨r, c', h, h1 (by decide), h3 (by decide)⟩

/-- C3 as stated fails when another listed host id is a prefix of the caller's:
for the caller `a:containers` and the stale host `a`, deleting `a` deletes the
key `docker:hosts:a:containers`, which is the caller's own record. -/
theorem ClearExpiredHosts_self_record_counterexample :
    "a:containers" ∈ members (Store.aliased.data hostsKey) ∧
    field (Store.aliased.data (hostKey "a:containers")) "last_update" = some "100" ∧
    (ClearExpiredHosts ⟨"a:containers", 15000000000⟩ 100 (Conn.idle Store.aliased)).map
        (fun r => (r.1, r.2.server.data (hostKey "a:containers"),
          members (r.2.server.data hostsKey)))
      = some (none, none, ["a:containers"]) := by
  decide

/-! ## ClearExpiredHosts skips a host it cannot read -/

theorem readInt_absent (s : Store) (h f : String) (hd : s.data (hostKey h) = none) :
    readInt s h f = none := by
  simp [readInt, field, hd]

theorem readInt_congr (s s' : Store) (h f : String)
    (hd : s'.data (hostKey h) = s.data (hostKey h)) : readInt s' h f = readInt s h f := by
  simp [readInt, hd]

theorem gcStep_unreadable (cache : Cache) (now : Int) (h : String) (s : Store)
    (hbad : readInt s h "last_update" = none ∨ readInt s h "update_interval" = none) :
    gcStep cache now h s = s := by
  unfold gcStep
  split
  · rfl
  · rcases hbad with hb | hb
    · rw [hb]
    · rw [hb]
      cases readInt s h "last_update" <;> rfl

theorem unreadable_gcStep (cache : Cache) (now : Int) (g h : String) (s : Store)
    (hbad : readInt s h "last_update" = none ∨ readInt s h "update_interval" = none) :
    readInt (gcStep cache now g s) h "last_update" = none ∨
    readInt (gcStep cache now g s) h "update_interval" = none := by
  rcases gcStep_data_or_none cache now g s (hostKey h) (hostKey_ne_hostsKey h) with hd | hd
  · rw [readInt_congr _ _ _ _ hd, readInt_congr _ _ _ _ hd]; exact hbad
  · exact Or.inl (readInt_absent _ _ _ hd)

theorem gcFold_filter (cache : Cache) (now : Int) (h : String) (hosts : List String) :
    ∀ s : Store, (readInt s h "last_update" = none ∨ readInt s h "update_interval" = none) →
      gcFold cache now hosts s = gcFold cache now (hosts.filter fun g => g ≠ h) s := by
  induction hosts with
  | nil => intro s _; rfl
  | cons g rest ih =>
    intro s hbad
    by_cases hg : g = h
    · subst hg
      simp only [gcFold_cons, gcStep_unreadable cache now g s hbad, ne_eq, not_true_eq_false,
        decide_False, Bool.false_eq_true, not_false_eq_true, List.filter_cons_of_neg]
      exact ih s hbad
    · have : (decide (g ≠ h)) = true := by simpa using hg
      simp only [gcFold_cons, List.filter_cons, this, if_true]
      exact ih _ (unreadable_gcStep cache now g h s hbad)

/-- C9, amended: a listed host whose `last_update` or `update_interval` cannot
be read (error reply, absent, or text that is no integer) is skipped: the pass
returns no error, its effect is that of the iterations for the other listed
hosts, the host stays in the host set and no `expired_host` event is published
for it; its record and container set are left as they were provided no other
listed host id is this id with `:containers` appended or removed. -/
theorem ClearExpiredHosts_skips_unreadable (cache : Cache) (now : Int) (s : Store) (h : String)
    (hin : h ∈ members (s.data hostsKey))
    (hbad : readInt s h "last_update" = none ∨ readInt s h "update_interval" = none) :
    ∃ c', ClearExpiredHosts cache now (Conn.idle s) = some (none, c') ∧
      clearHosts cache now ((members (s.data hostsKey)).filter fun g => g ≠ h) (Conn.idle s)
        = some c' ∧
      h ∈ members (c'.server.data hostsKey) ∧
      (∃ evs, c'.server.published = s.published ++ evs ∧
        (EVENTS_CHANNEL, "expired_host:" ++ h) ∉ evs) ∧
      ((∀ g ∈ members (s.data hostsKey), g ≠ cache.id →
          g ++ ":containers" ≠ h ∧ g ≠ h ++ ":containers") →
        c'.server.data (hostKey h) = s.data (hostKey h) ∧
        c'.server.data (hostContainersKey h) = s.data (hostContainersKey h)) := by
  rcases ClearExpiredHosts_total cache now s with ⟨-, hrun⟩ | ⟨hnil, -⟩
  · have hf := gcFold_filter cache now h (members (s.data hostsKey)) s hbad
    have hne : ∀ g ∈ (members (s.data hostsKey)).filter (fun g => g ≠ h), g ≠ h := by
      intro g hg
      simpa using (List.mem_filter.mp hg).2
    have hsub : ∀ g ∈ (members (s.data hostsKey)).filter (fun g => g ≠ h),
        g ∈ members (s.data hostsKey) := fun g hg => (List.mem_filter.mp hg).1
    refine ⟨_, hrun, ?_, ?_, ?_, ?_⟩
    · rw [clearHosts_idle, hf]
    · simp only [Conn.idle]
      rw [hf]
      exact gcFold_mem_keep cache now h _ s (fun g hg _ => hne g hg) hin
    · simp only [Conn.idle]
      rw [hf]
      obtain ⟨evs, h1, h2⟩ := gcFold_published cache now
        ((members (s.data hostsKey)).filter fun g => g ≠ h) s
      refine ⟨evs, h1, fun hmem => ?_⟩
      obtain ⟨g, hg, -, he⟩ := h2 _ hmem
      exact hne g hg ((expired_msg_inj _ _).mp he).symm
    · intro hal
      simp only [Conn.idle]
      rw [hf]
      constructor
      · exact gcFold_frame cache now _ (hostKey_ne_hostsKey _) _ s
          (fun g hg hid => ⟨hostKey_ne_of_ne _ _ (hne g hg),
            hostKey_ne_containers _ _ (hal g (hsub g hg) hid).1⟩)
      · exact gcFold_frame cache now _ (hostContainersKey_ne_hostsKey _) _ s
          (fun g hg hid => ⟨containers_ne_hostKey _ _ (hal g (hsub g hg) hid).2,
            containers_ne_of_ne _ _ (hne g hg)⟩)
  · rw [hnil] at hin
    cases hin

theorem ClearExpiredHosts_skips_unreadable_witness :
    "h3" ∈ members (Store.garbled.data hostsKey) ∧
    readInt Store.garbled "h3" "last_update" = none ∧
    ∃ c', ClearExpiredHosts ⟨"h1", 15000000000⟩ 11 (Conn.idle Store.garbled) = some (none, c') ∧
      "h3" ∈ members (c'.server.data hostsKey) ∧
      c'.server.data (hostKey "h3") = Store.garbled.data (hostKey "h3") ∧
      c'.server.data (hostContainersKey "h3") = Store.garbled.data (hostContainersKey "h3") := by
  obtain ⟨c', h, -, h1, -, h3⟩ :=
    ClearExpiredHosts_skips_unreadable ⟨"h1", 15000000000⟩ 11 Store.garbled "h3"
      (by decide) (Or.inl (by decide))
  exact ⟨by decide, by decide, c', h, h1, h3 (by decide)⟩

/-- C9 as stated fails when the unreadable id is another listed id with
`:containers` appended: the read of `last_update` of `a:containers` is an
error (the key holds the container set of `a`), the host is skipped, and
deleting the stale host `a` deletes that key. -/
theorem ClearExpiredHosts_unreadable_record_counterexample :
    "a:containers" ∈ members (Store.aliasedSet.data hostsKey) ∧
    (Store.aliasedSet.run (.hget (hostKey "a:containers") "last_update")).1.Err
      = some WRONGTYPE ∧
    Store.aliasedSet.data (hostKey "a:containers") = some ⟨.set ["c1"], none⟩ ∧
    (ClearExpiredHosts ⟨"me", 15000000000⟩ 100 (Conn.idle Store.aliasedSet)).map
        (fun r => (r.1, r.2.server.data (hostKey "a:containers"),
          members (r.2.server.data hostsKey)))
      = some (none, none, ["a:containers"]) := by
  decide

/-! ## ClearExpiredHosts: the expiry decision -/

theorem wrap64_eq (x : Int) (h1 : INT64_MIN ≤ x) (h2 : x ≤ INT64_MAX) : wrap64 x = x := by
  unfold wrap64
  unfold INT64_MIN at h1
  unfold INT64_MAX at h2
  omega

theorem gcStep_alive (cache : Cache) (now : Int) (h : String) (s : Store) (lu ui : Int)
    (hlu : readInt s h "last_update" = some lu) (hui : readInt s h "update_interval" = some ui)
    (hlt : wrap64 (now - lu) < wrap64 (2 * ui)) : gcStep cache now h s = s := by
  unfold gcStep
  split
  · rfl
  · simp only [hlu, hui, hlt, if_true]

theorem gcStep_expired (cache : Cache) (now : Int) (h : String) (s : Store) (lu ui : Int)
    (hself : h ≠ cache.id)
    (hlu : readInt s h "last_update" = some lu) (hui : readInt s h "update_interval" = some ui)
    (hge : ¬ wrap64 (now - lu) < wrap64 (2 * ui)) :
    gcStep cache now h s = (s.runAll (expireCmds h)).2 := by
  unfold gcStep
  simp only [hself, if_false, hlu, hui, hge]

/-- A host whose iteration changes nothing, in every store with its record as
given, drops out of the pass when no other iteration touches that record. -/
theorem gcFold_skip (cache : Cache) (now : Int) (h : String) (e : Option Entry)
    (hskip : ∀ s : Store, s.data (hostKey h) = e → gcStep cache now h s = s)
    (hosts : List String) :
    ∀ s : Store, s.data (hostKey h) = e →
      (∀ g ∈ hosts, g ≠ cache.id → g ++ ":containers" ≠ h) →
      gcFold cache now hosts s = gcFold cache now (hosts.filter fun g => g ≠ h) s := by
  induction hosts with
  | nil => intro s _ _; rfl
  | cons g rest ih =>
    intro s hd hal
    by_cases hg : g = h
    · subst hg
      simp only [gcFold_cons, hskip s hd, ne_eq, not_true_eq_false,
        decide_False, Bool.false_eq_true, not_false_eq_true, List.filter_cons_of_neg]
      exact ih s hd (fun y hy => hal y (by simp [hy]))
    · have : (decide (g ≠ h)) = true := by simpa using hg
      simp only [gcFold_cons, List.filter_cons, this, if_true]
      refine ih _ ?_ (fun y hy => hal y (by simp [hy]))
      rw [gcStep_frame cache now g s _ (hostKey_ne_hostsKey h)
        (fun hid => ⟨hostKey_ne_of_ne _ _ hg, hostKey_ne_containers _ _ (hal g (by simp) hid)⟩), hd]

/-- A listed host found expired at its iteration is gone after the pass. -/
theorem gcFold_expired (cache : Cache) (now : Int) (h : String) (e : Option Entry)
    (hself : h ≠ cache.id)
    (hexp : ∀ s : Store, s.data (hostKey h) = e →
      gcStep cache now h s = (s.runAll (expireCmds h)).2)
    (hosts : List String) :
    ∀ s : Store, s.data (hostKey h) = e → h ∈ hosts →
      (∀ g ∈ hosts, g ≠ cache.id → g ++ ":containers" ≠ h) →
      h ∉ members ((gcFold cache now hosts s).data hostsKey) ∧
      (gcFold cache now hosts s).data (hostKey h) = none ∧
      (gcFold cache now hosts s).data (hostContainersKey h) = none ∧
      ∃ evs, (gcFold cache now hosts s).published = s.published ++ evs ∧
        (EVENTS_CHANNEL, "expired_host:" ++ h) ∈ evs := by
  induction hosts with
  | nil => intro s _ hin; cases hin
  | cons g rest ih =>
    intro s hd hin hal
    by_cases hg : g = h
    · subst hg
      rw [gcFold_cons, hexp s hd]
      refine ⟨fun hm => ?_, ?_, ?_, ?_⟩
      · have := gcFold_mem_sub cache now g rest _ hm
        rw [expire_members] at this
        simpa using (List.mem_filter.mp this).2
      · exact gcFold_absent cache now _ rest _ (expire_hostKey s g)
      · exact gcFold_absent cache now _ rest _ (expire_hostContainersKey s g)
      · obtain ⟨evs, h1, -⟩ := gcFold_published cache now rest (s.runAll (expireCmds g)).2
        exact ⟨(EVENTS_CHANNEL, "expired_host:" ++ g) :: evs,
          by rw [h1, expire_published]; simp, by simp⟩
    · rw [gcFold_cons]
      have hd1 : (gcStep cache now g s).data (hostKey h) = e := by
        rw [gcStep_frame cache now g s _ (hostKey_ne_hostsKey h)
          (fun hid => ⟨hostKey_ne_of_ne _ _ hg, hostKey_ne_containers _ _ (hal g (by simp) hid)⟩),
          hd]
      have hin1 : h ∈ rest := by
        rcases List.mem_cons.mp hin with e | e
        · exact absurd e.symm hg
        · exact e
      obtain ⟨m1, m2, m3, evs, m4, m5⟩ := ih _ hd1 hin1 (fun y hy => hal y (by simp [hy]))
      refine ⟨m1, m2, m3, ?_⟩
      rcases gcStep_published cache now g s with hp | ⟨-, hp⟩
      · exact ⟨evs, by rw [m4, hp], m5⟩
      · exact ⟨(EVENTS_CHANNEL, "expired_host:" ++ g) :: evs, by rw [m4, hp]; simp,
          List.mem_cons_of_mem _ m5⟩

/-- C2, amended: for a listed host `h` other than the caller whose
`last_update` and `update_interval` read as the integers `lu` and `ui`, with
`now - lu` and `2 * ui` inside `int64` and no other listed host id equal to `h`
with `:containers` appended or removed, a pass with sync time `now` returns no
error and: if `now - lu >= 2 * ui`, `h` is out of the host set, its record and
container set are deleted and `expired_host:<h>` is published; if
`now - lu < 2 * ui`, `h` stays, its record and container set are as they were
and no `expired_host:<h>` is published. -/
theorem ClearExpiredHosts_expiry (cache : Cache) (now : Int) (s : Store) (h : String)
    (lu ui : Int)
    (hin : h ∈ members (s.data hostsKey))
    (hself : h ≠ cache.id)
    (hlu : readInt s h "last_update" = some lu)
    (hui : readInt s h "update_interval" = some ui)
    (hsub : INT64_MIN ≤ now - lu ∧ now - lu ≤ INT64_MAX)
    (hmul : INT64_MIN ≤ 2 * ui ∧ 2 * ui ≤ INT64_MAX)
    (hal : ∀ g ∈ members (s.data hostsKey), g ≠ cache.id →
      g ++ ":containers" ≠ h ∧ g ≠ h ++ ":containers") :
    ∃ c', ClearExpiredHosts cache now (Conn.idle s) = some (none, c') ∧
      (2 * ui ≤ now - lu →
        h ∉ members (c'.server.data hostsKey) ∧
        c'.server.data (hostKey h) = none ∧
        c'.server.data (hostContainersKey h) = none ∧
        ∃ evs, c'.server.published = s.published ++ evs ∧
          (EVENTS_CHANNEL, "expired_host:" ++ h) ∈ evs) ∧
      (now - lu < 2 * ui →
        h ∈ members (c'.server.data hostsKey) ∧
        c'.server.data (hostKey h) = s.data (hostKey h) ∧
        c'.server.data (hostContainersKey h) = s.data (hostContainersKey h) ∧
        ∃ evs, c'.server.published = s.published ++ evs ∧
          (EVENTS_CHANNEL, "expired_host:" ++ h) ∉ evs) := by
  rcases ClearExpiredHosts_total cache now s with ⟨-, hrun⟩ | ⟨hnil, -⟩
  · have hw1 := wrap64_eq _ hsub.1 hsub.2
    have hw2 := wrap64_eq _ hmul.1 hmul.2
    have hal1 : ∀ g ∈ members (s.data hostsKey), g ≠ cache.id → g ++ ":containers" ≠ h :=
      fun g hg hid => (hal g hg hid).1
    refine ⟨_, hrun, ?_, ?_⟩
    · intro hge
      simp only [Conn.idle]
      refine gcFold_expired cache now h (s.data (hostKey h)) hself ?_ _ s rfl hin hal1
      intro s' hd
      exact gcStep_expired cache now h s' lu ui hself
        (by rw [readInt_congr _ _ _ _ hd, hlu]) (by rw [readInt_congr _ _ _ _ hd, hui])
        (by rw [hw1, hw2]; omega)
    · intro hlt
      simp only [Conn.idle]
      have hf := gcFold_skip cache now h (s.data (hostKey h))
        (fun s' hd => gcStep_alive cache now h s' lu ui
          (by rw [readInt_congr _ _ _ _ hd, hlu]) (by rw [readInt_congr _ _ _ _ hd, hui])
          (by rw [hw1, hw2]; exact hlt))
        (members (s.data hostsKey)) s rfl hal1
      have hne : ∀ g ∈ (members (s.data hostsKey)).filter (fun g => g ≠ h), g ≠ h := by
        intro g hg
        simpa using (List.mem_filter.mp hg).2
      have hsubl : ∀ g ∈ (members (s.data hostsKey)).filter (fun g => g ≠ h),
          g ∈ members (s.data hostsKey) := fun g hg => (List.mem_filter.mp hg).1
      rw [hf]
      refine ⟨?_, ?_, ?_, ?_⟩
      · exact gcFold_mem_keep cache now h _ s (fun g hg _ => hne g hg) hin
      · exact gcFold_frame cache now _ (hostKey_ne_hostsKey _) _ s
          (fun g hg hid => ⟨hostKey_ne_of_ne _ _ (hne g hg),
            hostKey_ne_containers _ _ (hal g (hsubl g hg) hid).1⟩)
      · exact gcFold_frame cache now _ (hostContainersKey_ne_hostsKey _) _ s
          (fun g hg hid => ⟨containers_ne_hostKey _ _ (hal g (hsubl g hg) hid).2,
            containers_ne_of_ne _ _ (hne g hg)⟩)
      · obtain ⟨evs, h1, h2⟩ := gcFold_published cache now
          ((members (s.data hostsKey)).filter fun g => g ≠ h) s
        refine ⟨evs, h1, fun hmem => ?_⟩
        obtain ⟨g, hg, -, he⟩ := h2 _ hmem
        exact hne g hg ((expired_msg_inj _ _).mp he).symm
  · rw [hnil] at hin
    cases hin

theorem ClearExpiredHosts_expiry_witness :
    (∃ c', ClearExpiredHosts ⟨"h1", 15000000000⟩ 11 (Conn.idle Store.scenario) = some (none, c') ∧
      "h2" ∉ members (c'.server.data hostsKey) ∧
      c'.server.data (hostKey "h2") = none ∧
      c'.server.data (hostContainersKey "h2") = none ∧
      ∃ evs, c'.server.published = Store.scenario.published ++ evs ∧
        (EVENTS_CHANNEL, "expired_host:h2") ∈ evs) ∧
    (∃ c', ClearExpiredHosts ⟨"h1", 15000000000⟩ 9 (Conn.idle Store.scenario) = some (none, c') ∧
      "h2" ∈ members (c'.server.data hostsKey) ∧
      c'.server.data (hostKey "h2") = Store.scenario.data (hostKey "h2") ∧
      c'.server.data (hostContainersKey "h2") = Store.scenario.data (hostContainersKey "h2")) := by
  constructor
  · obtain ⟨c', h, h1, -⟩ :=
      ClearExpiredHosts_expiry ⟨"h1", 15000000000⟩ 11 Store.scenario "h2" 0 5
        (by decide) (by decide) (by decide) (by decide) (by decide) (by decide) (by decide)
    exact ⟨c', h, h1 (by decide)⟩
  · obtain ⟨c', h, -, h2⟩ :=
      ClearExpiredHosts_expiry ⟨"h1", 15000000000⟩ 9 Store.scenario "h2" 0 5
        (by decide) (by decide) (by decide) (by decide) (by decide) (by decide) (by decide)
    obtain ⟨a, b, c, -⟩ := h2 (by decide)
    exact ⟨c', h, a, b, c⟩

/-- C2 as stated fails in two ways.  With `update_interval` 2^62 the product
`2 * updateInterval` wraps to the smallest `int64`, so at `now` 9 the host
`h2` (9 - 0 < 2^63) is deleted.  And for the stale listed hosts `a` and
`a:containers`, whose fields both read as integers, deleting `a` deletes the
record of `a:containers`, which is then skipped and stays in the host set. -/
theorem ClearExpiredHosts_expiry_counterexample :
    (readInt Store.hugeInterval "h2" "last_update" = some 0 ∧
      readInt Store.hugeInterval "h2" "update_interval" = some 4611686018427387904 ∧
      (9 : Int) - 0 < 2 * 4611686018427387904 ∧
      wrap64 (2 * 4611686018427387904) = INT64_MIN ∧
      (ClearExpiredHosts ⟨"h1", 15000000000⟩ 9 (Conn.idle Store.hugeInterval)).map
          (fun r => (r.1, members (r.2.server.data hostsKey), r.2.server.data (hostKey "h2"),
            r.2.server.published))
        = some (none, ["h1"], none, [(EVENTS_CHANNEL, "expired_host:h2")])) ∧
    (readInt Store.aliased "a:containers" "last_update" = some 100 ∧
      readInt Store.aliased "a:containers" "update_interval" = some 15 ∧
      2 * 15 ≤ (1000 : Int) - 100 ∧
      (ClearExpiredHosts ⟨"h1", 15000000000⟩ 1000 (Conn.idle Store.aliased)).map
          (fun r => (r.1, members (r.2.server.data hostsKey), r.2.server.published))
        = some (none, ["a:containers"], [(EVENTS_CHANNEL, "expired_host:a")])) := by
  refine ⟨⟨by decide, by decide, by decide, by decide, by decide⟩,
    ⟨by decide, by decide, by decide, by decide⟩⟩

/-! ## DeleteContainer -/

/-- The store after `DeleteContainer`: the transaction has run, then the
heartbeat is written; when no error is returned the write was accepted and the
event is published. -/
theorem DeleteContainer_run (cache : Cache) (localts : Int) (container : ContainerInfo)
    (s : Store) (c' : Conn)
    (h : DeleteContainer cache localts container (Conn.idle s) = some (none, c')) :
    c' = Conn.idle (((s.runAll (deleteTxn cache container)).2.runAll
            (deleteTail cache localts container)).2) ∧
    ((s.runAll (deleteTxn cache container)).2.run
      (.hset (hostKey cache.id) "last_update" (formatInt localts))).1.Err = none := by
  unfold DeleteContainer at h
  dsimp only at h
  have ht := readReplies_transaction s (deleteTxn cache container)
    (by intro x hx; simp [deleteTxn] at hx; rcases hx with rfl | rfl | rfl <;> rfl)
  have hp : (((((Conn.idle s).Append .multi).Append
        (.del (CACHE_PREFIX ++ ":containers:" ++ container.Id))).Append
        (.srem (CACHE_PREFIX ++ ":hosts:" ++ cache.id ++ ":containers") container.Id)).Append
        (.hincrby (CACHE_PREFIX ++ ":hosts:" ++ cache.id) "containers_running" (-1))).Append .exec
      = ⟨s, none, Command.multi :: (deleteTxn cache container ++ [Command.exec]), []⟩ := rfl
  rw [hp, show (5 : Nat) = (deleteTxn cache container).length + 2 from rfl, ht] at h
  generalize (s.runAll (deleteTxn cache container)).2 = s1 at h ⊢
  simp only [refreshHostLastUpdate_idle, SetHostParam_idle] at h
  split at h
  · simp at h
  · simp at h
  · rename_i c heq
    obtain ⟨he, rfl⟩ := Prod.mk.inj (Option.some.inj heq)
    rw [publishEvent_idle] at h
    simp only [Option.some.injEq, Prod.mk.injEq, true_and] at h
    exact ⟨h.symm, he⟩

theorem hashGet_hashSet_same (fs : List (String × String)) (f v : String) :
    hashGet (hashSet fs f v) f = some v := by
  induction fs with
  | nil => simp [hashSet, hashGet]
  | cons p rest ih =>
    obtain ⟨g, w⟩ := p
    by_cases hg : g = f
    · simp [hashSet, hashGet, hg]
    · simp only [hashSet, hg, if_false]
      simp only [hashGet, List.find?_cons, hg, decide_False] at ih ⊢
      exact ih

theorem hashGet_hashSet_ne (fs : List (String × String)) (f v g : String) (hne : g ≠ f) :
    hashGet (hashSet fs f v) g = hashGet fs g := by
  induction fs with
  | nil => simp [hashSet, hashGet, Ne.symm hne]
  | cons p rest ih =>
    obtain ⟨k, w⟩ := p
    by_cases hk : k = f
    · subst hk
      have : ¬ k = g := fun e => hne e.symm
      simp [hashSet, hashGet, List.find?_cons, this]
    · simp only [hashSet, hk, if_false]
      by_cases hkg : k = g
      · simp [hashGet, List.find?_cons, hkg]
      · simp only [hashGet, List.find?_cons, hkg, decide_False] at ih ⊢
        exact ih

/-- An accepted `hset` sets its field and keeps the others. -/
theorem run_hset_field (s : Store) (k f v g : String)
    (hok : (s.run (.hset k f v)).1.Err = none) :
    field ((s.run (.hset k f v)).2.data k) g
      = if g = f then some v else field (s.data k) g := by
  simp only [Store.run] at hok ⊢
  rcases hd : s.data k with _ | ⟨val, t⟩
  · simp only [put_data_eq, field, hashGet]
    by_cases hg : g = f
    · simp [hg]
    · simp [hg, Ne.symm hg]
  · cases val with
    | str x => rw [hd] at hok; simp [Reply.Err] at hok
    | set x => rw [hd] at hok; simp [Reply.Err] at hok
    | hash fs =>
      simp only [put_data_eq, field]
      by_cases hg : g = f
      · simp only [hg, if_true]; exact hashGet_hashSet_same fs f v
      · simp only [hg, if_false]; exact hashGet_hashSet_ne fs f v g hg

/-- `hincrby` on a field holding an integer, within range. -/
theorem run_hincrby_field (s : Store) (k f : String) (n v : Int)
    (hv : countOf (s.data k) f = some v)
    (hr : INT64_MIN ≤ v + n ∧ v + n ≤ INT64_MAX) :
    field ((s.run (.hincrby k f n)).2.data k) f = some (formatInt (v + n)) := by
  simp only [Store.run]
  rcases hd : s.data k with _ | ⟨val, t⟩
  · rw [hd] at hv
    simp only [countOf, Option.some.injEq] at hv
    subst hv
    simp [put_data_eq, field, hashGet]
  · rw [hd] at hv
    cases val with
    | str x => simp [countOf] at hv
    | set x => simp [countOf] at hv
    | hash fs =>
      simp only [countOf] at hv
      simp only []
      cases hg : hashGet fs f with
      | none =>
        rw [hg] at hv
        simp only [Option.some.injEq] at hv
        subst hv
        simp only [put_data_eq, field, zero_add]
        exact hashGet_hashSet_same fs f _
      | some old =>
        rw [hg] at hv
        simp only [] at hv
        simp only [hv, hr, and_self, if_true, put_data_eq, field]
        exact hashGet_hashSet_same fs f _

theorem run_expire_data (s : Store) (k : String) (t : Int) (ht : 1 ≤ t) (g : String) :
    field ((s.run (.expire k t)).2.data k) g = field (s.data k) g := by
  simp only [Store.run]
  split
  · rfl
  · rename_i e he
    have : ¬ t ≤ 0 := by omega
    simp only [this, if_false, put_data_eq, he]
    rcases e with ⟨v, _⟩
    cases v <;> rfl

theorem field_isHash (e : Option Entry) (f v : String) (h : field e f = some v) :
    ∃ fs t, e = some ⟨.hash fs, t⟩ := by
  rcases e with _ | ⟨val, t⟩
  · simp [field] at h
  · cases val with
    | str x => simp [field] at h
    | set x => simp [field] at h
    | hash fs => exact ⟨fs, t, rfl⟩

theorem run_hset_Err_of_hash (s : Store) (k f v : String) (fs : List (String × String))
    (t : Option Int) (h : s.data k = some ⟨.hash fs, t⟩) :
    (s.run (.hset k f v)).1.Err = none := by
  simp only [Store.run, h]
  rfl

/-- After a `SetContainersList` that returns no error, with a time to live of
at least one second, the host record holds the three fields written. -/
theorem SetContainersList_fields (cache : Cache) (localts : Int)
    (containers : List Container) (s : Store) (c' : Conn)
    (httl : 1 ≤ cache.ttlSecs)
    (h : SetContainersList cache localts containers (Conn.idle s) = some (none, c')) :
    field (c'.server.data (hostKey cache.id)) "containers_running"
      = some (formatInt containers.length) ∧
    field (c'.server.data (hostKey cache.id)) "update_interval"
      = some (formatInt cache.ttlSecs) ∧
    field (c'.server.data (hostKey cache.id)) "last_update" = some (formatInt localts) := by
  obtain ⟨n, rfl, hn⟩ := SetContainersList_run cache localts containers s none c' h
  obtain ⟨rfl, he1, he2, he3⟩ := hn rfl
  generalize (s.runAll (listTxn cache containers)).2 = s1 at he1 he2 he3 ⊢
  have hk : ∀ (t : Store) (m : String),
      (t.run (.sadd hostsKey m)).2.data (hostKey cache.id) = t.data (hostKey cache.id) :=
    fun t m => run_data_ne _ _ _ (by simp [Command.target]; exact (hostKey_ne_hostsKey _).symm)
  have hk2 : ∀ (t : Store) (m : Int),
      (t.run (.expire hostsKey m)).2.data (hostKey cache.id) = t.data (hostKey cache.id) :=
    fun t m => run_data_ne _ _ _ (by simp [Command.target]; exact (hostKey_ne_hostsKey _).symm)
  have hk3 : ∀ (t : Store) (a b : String),
      (t.run (.publish a b)).2.data (hostKey cache.id) = t.data (hostKey cache.id) :=
    fun t a b => rfl
  simp only [listTail, List.take, Store.runAll] at he1 he2 he3 ⊢
  simp only [Conn.idle, hk, hk2, hk3, run_expire_data _ _ _ httl,
    run_hset_field _ _ _ _ _ he3, run_hset_field _ _ _ _ _ he2, run_hset_field _ _ _ _ _ he1]
  have n1 : ¬ "containers_running" = "last_update" := by decide
  have n2 : ¬ "containers_running" = "update_interval" := by decide
  have n3 : ¬ "update_interval" = "last_update" := by decide
  simp only [n1, n2, n3, if_true, if_false, and_self]

theorem join3 (a b c : String) :
    String.intercalate ":" [a, b, c] = a ++ ":" ++ b ++ ":" ++ c := by
  simp [String.intercalate, String.intercalate.go]

theorem deleteTxn_container (cache : Cache) (container : ContainerInfo) (s : Store) :
    (s.runAll (deleteTxn cache container)).2.data (containerKey container.Id) = none := by
  simp only [deleteTxn, Store.runAll]
  rw [run_data_ne _ _ _ (by simp [Command.target]; exact (containerKey_ne_hostKey _ _).symm),
    run_data_ne _ _ _ (by simp [Command.target]; exact (containerKey_ne_hostContainersKey _ _).symm)]
  exact run_del_data _ _

theorem deleteTxn_members (cache : Cache) (container : ContainerInfo) (s : Store) :
    members ((s.runAll (deleteTxn cache container)).2.data (hostContainersKey cache.id))
      = (members (s.data (hostContainersKey cache.id))).filter (fun x => x ≠ container.Id) := by
  simp only [deleteTxn, Store.runAll]
  rw [run_data_ne _ _ _ (by simp [Command.target]; exact hostKey_ne_hostContainersKey _),
    run_srem_members,
    run_data_ne _ _ _ (by simp [Command.target]; exact containerKey_ne_hostContainersKey _ _)]

theorem deleteTxn_count (cache : Cache) (container : ContainerInfo) (s : Store) (v : Int)
    (hv : countOf (s.data (hostKey cache.id)) "containers_running" = some v)
    (hr : INT64_MIN ≤ v - 1) (hr2 : v ≤ INT64_MAX) :
    field ((s.runAll (deleteTxn cache container)).2.data (hostKey cache.id)) "containers_running"
      = some (formatInt (v - 1)) := by
  simp only [deleteTxn, Store.runAll]
  have h1 : ((s.run (.del (containerKey container.Id))).2.run
      (.srem (hostContainersKey cache.id) container.Id)).2.data (hostKey cache.id)
        = s.data (hostKey cache.id) := by
    rw [run_data_ne _ _ _ (by simp [Command.target]; exact (hostKey_ne_hostContainersKey _).symm),
      run_data_ne _ _ _ (by simp [Command.target]; exact containerKey_ne_hostKey _ _)]
  have := run_hincrby_field ((s.run (.del (containerKey container.Id))).2.run
      (.srem (hostContainersKey cache.id) container.Id)).2 (hostKey cache.id)
      "containers_running" (-1) v (by rw [h1]; exact hv)
      ⟨by omega, by unfold INT64_MAX at hr2 ⊢; omega⟩
  rw [this]
  rfl

theorem deleteTxn_published (cache : Cache) (container : ContainerInfo) (s : Store) :
    (s.runAll (deleteTxn cache container)).2.published = s.published := by
  simp only [deleteTxn, Store.runAll]
  rw [run_published _ _ (by intro _ _ h; cases h), run_published _ _ (by intro _ _ h; cases h),
    run_published _ _ (by intro _ _ h; cases h)]

theorem deleteTail_data_ne (cache : Cache) (localts : Int) (container : ContainerInfo)
    (s : Store) (k : String) (hk : k ≠ hostKey cache.id) :
    (s.runAll (deleteTail cache localts container)).2.data k = s.data k := by
  apply runAll_data_ne
  intro cmd hcmd
  simp only [deleteTail, List.mem_cons, List.mem_singleton, List.not_mem_nil, or_false] at hcmd
  rcases hcmd with rfl | rfl <;> simp [Command.target]
  exact fun e => hk e.symm

theorem deleteTail_count (cache : Cache) (localts : Int) (container : ContainerInfo) (s : Store)
    (hok : (s.run (.hset (hostKey cache.id) "last_update" (formatInt localts))).1.Err = none) :
    field ((s.runAll (deleteTail cache localts container)).2.data (hostKey cache.id))
        "containers_running"
      = field (s.data (hostKey cache.id)) "containers_running" := by
  simp only [deleteTail, Store.runAll]
  have h3 : ∀ (t : Store) (a b : String),
      (t.run (.publish a b)).2.data (hostKey cache.id) = t.data (hostKey cache.id) :=
    fun t a b => rfl
  rw [h3, run_hset_field _ _ _ _ _ hok]
  have n1 : ¬ "containers_running" = "last_update" := by decide
  simp only [n1, if_false]

theorem deleteTail_published (cache : Cache) (localts : Int) (container : ContainerInfo)
    (s : Store) :
    (s.runAll (deleteTail cache localts container)).2.published
      = s.published ++ [(EVENTS_CHANNEL,
          "delete_container:" ++ cache.id ++ ":" ++ container.Id)] := by
  simp only [deleteTail, Store.runAll]
  have h3 : ∀ (t : Store) ch msg,
      (t.run (.publish ch msg)).2.published = t.published ++ [(ch, msg)] := fun t ch msg => rfl
  rw [h3, run_published _ _ (by intro _ _ h; cases h), join3]
  rfl

/-- `DeleteContainer` returns no error as soon as the heartbeat write is
accepted. -/
theorem DeleteContainer_ok (cache : Cache) (localts : Int) (container : ContainerInfo)
    (s : Store)
    (hok : ((s.runAll (deleteTxn cache container)).2.run
      (.hset (hostKey cache.id) "last_update" (formatInt localts))).1.Err = none) :
    DeleteContainer cache localts container (Conn.idle s)
      = some (none, Conn.idle (((s.runAll (deleteTxn cache container)).2.runAll
            (deleteTail cache localts container)).2)) := by
  unfold DeleteContainer
  dsimp only
  have ht := readReplies_transaction s (deleteTxn cache container)
    (by intro x hx; simp [deleteTxn] at hx; rcases hx with rfl | rfl | rfl <;> rfl)
  have hp : (((((Conn.idle s).Append .multi).Append
        (.del (CACHE_PREFIX ++ ":containers:" ++ container.Id))).Append
        (.srem (CACHE_PREFIX ++ ":hosts:" ++ cache.id ++ ":containers") container.Id)).Append
        (.hincrby (CACHE_PREFIX ++ ":hosts:" ++ cache.id) "containers_running" (-1))).Append .exec
      = ⟨s, none, Command.multi :: (deleteTxn cache container ++ [Command.exec]), []⟩ := rfl
  rw [hp, show (5 : Nat) = (deleteTxn cache container).length + 2 from rfl, ht]
  simp only [refreshHostLastUpdate_idle, SetHostParam_idle, hok, publishEvent_idle]
  rfl

theorem inInt64_range (x v : Int) (h : inInt64 x = some v) : INT64_MIN ≤ v ∧ v ≤ INT64_MAX := by
  unfold inInt64 at h
  split at h
  · rename_i hr
    simp only [Option.some.injEq] at h
    subst h
    exact hr
  · cases h

theorem redisParseInt_range (t : String) (v : Int) (h : redisParseInt t = some v) :
    INT64_MIN ≤ v ∧ v ≤ INT64_MAX := by
  unfold redisParseInt at h
  split at h
  · cases h
  · simp only [Option.some.injEq] at h
    subst h
    decide
  · split at h
    · cases hp : parseDigits _ 0 with
      | none => rw [hp] at h; cases h
      | some n => rw [hp] at h; exact inInt64_range _ _ h
    · cases h
  · split at h
    · cases hp : parseDigits _ 0 with
      | none => rw [hp] at h; cases h
      | some n => rw [hp] at h; exact inInt64_range _ _ h
    · cases h

theorem countOf_range (e : Option Entry) (f : String) (v : Int) (h : countOf e f = some v) :
    INT64_MIN ≤ v ∧ v ≤ INT64_MAX := by
  unfold countOf at h
  split at h
  · simp only [Option.some.injEq] at h; subst h; decide
  · split at h
    · simp only [Option.some.injEq] at h; subst h; decide
    · exact redisParseInt_range _ _ h
  · cases h

theorem countOf_of_field (e : Option Entry) (f t : String) (h : field e f = some t) :
    countOf e f = redisParseInt t := by
  obtain ⟨fs, ttl, rfl⟩ := field_isHash e f t h
  simp only [field] at h
  simp only [countOf, h]

/-- The effect of a `DeleteContainer` that returns no error. -/
theorem DeleteContainer_general (cache : Cache) (localts : Int) (container : ContainerInfo)
    (s : Store) (c' : Conn)
    (h : DeleteContainer cache localts container (Conn.idle s) = some (none, c')) :
    c'.server.data (containerKey container.Id) = none ∧
    (∀ x, x ∈ members (c'.server.data (hostContainersKey cache.id))
      ↔ x ∈ members (s.data (hostContainersKey cache.id)) ∧ x ≠ container.Id) ∧
    (∀ v, countOf (s.data (hostKey cache.id)) "containers_running" = some v →
      INT64_MIN ≤ v - 1 →
      field (c'.server.data (hostKey cache.id)) "containers_running"
        = some (formatInt (v - 1))) ∧
    c'.server.published
      = s.published ++ [(EVENTS_CHANNEL,
          "delete_container:" ++ cache.id ++ ":" ++ container.Id)] := by
  obtain ⟨rfl, hok⟩ := DeleteContainer_run cache localts container s c' h
  simp only [Conn.idle]
  refine ⟨?_, ?_, ?_, ?_⟩
  · rw [deleteTail_data_ne _ _ _ _ _ (containerKey_ne_hostKey _ _)]
    exact deleteTxn_container cache container s
  · intro x
    rw [deleteTail_data_ne _ _ _ _ _ (hostKey_ne_hostContainersKey _).symm, deleteTxn_members]
    simp [List.mem_filter]
  · intro v hv hr
    rw [deleteTail_count _ _ _ _ hok]
    exact deleteTxn_count cache container s v hv hr (countOf_range _ _ _ hv).2
  · rw [deleteTail_published, deleteTxn_published]

/-- The scenario of the specification on host `h1`: after
`SetContainersList([c1, c2])`, `DeleteContainer(c1)` returns no error and
leaves the set `{c2}`, the count 1 and the event `delete_container:h1:c1`. -/
theorem DeleteContainer_scenario (ttl lt1 lt2 : Int) (c1 : ContainerInfo) (s0 : Store)
    (k1 : Conn) (hid : c1.Id = "c1") (httl : 1 ≤ Cache.ttlSecs ⟨"h1", ttl⟩)
    (h1 : SetContainersList ⟨"h1", ttl⟩ lt1 [⟨"c1"⟩, ⟨"c2"⟩] (Conn.idle s0) = some (none, k1)) :
    ∃ k2, DeleteContainer ⟨"h1", ttl⟩ lt2 c1 k1 = some (none, k2) ∧
      (∀ x, x ∈ members (k2.server.data (hostContainersKey "h1")) ↔ x = "c2") ∧
      field (k2.server.data (hostKey "h1")) "containers_running" = some "1" ∧
      k2.server.published
        = k1.server.published ++ [(EVENTS_CHANNEL, "delete_container:h1:c1")] := by
  have hm := SetContainersList_members ⟨"h1", ttl⟩ lt1 [⟨"c1"⟩, ⟨"c2"⟩] s0 k1 httl h1
  obtain ⟨hf, -, -⟩ := SetContainersList_fields ⟨"h1", ttl⟩ lt1 [⟨"c1"⟩, ⟨"c2"⟩] s0 k1 httl h1
  obtain ⟨n, hk, -⟩ := SetContainersList_run ⟨"h1", ttl⟩ lt1 [⟨"c1"⟩, ⟨"c2"⟩] s0 none k1 h1
  generalize ((s0.runAll (listTxn ⟨"h1", ttl⟩ [⟨"c1"⟩, ⟨"c2"⟩])).2.runAll
    (List.take n (listTail ⟨"h1", ttl⟩ lt1 [⟨"c1"⟩, ⟨"c2"⟩]))).2 = s1 at hk
  subst hk
  have hsrv : (Conn.idle s1).server = s1 := rfl
  rw [hsrv] at hf
  simp only [hsrv] at hm
  have hcount : countOf (s1.data (hostKey "h1")) "containers_running" = some 2 := by
    rw [countOf_of_field _ _ _ hf]
    decide
  have hc := deleteTxn_count ⟨"h1", ttl⟩ c1 s1 2 hcount (by decide) (by decide)
  obtain ⟨fs, t, hh⟩ := field_isHash _ _ _ hc
  have hok := run_hset_Err_of_hash _ _ "last_update" (formatInt lt2) fs t hh
  have hrun := DeleteContainer_ok ⟨"h1", ttl⟩ lt2 c1 s1 hok
  obtain ⟨-, g2, g3, g4⟩ := DeleteContainer_general ⟨"h1", ttl⟩ lt2 c1 s1 _ hrun
  refine ⟨_, hrun, ?_, ?_, ?_⟩
  · intro x
    rw [g2, hm, hid]
    simp only [List.map_cons, List.map_nil, List.mem_cons, List.mem_singleton,
      List.not_mem_nil, or_false]
    constructor
    · rintro ⟨h | h, hne⟩
      · exact absurd h hne
      · exact h
    · rintro rfl
      exact ⟨Or.inr rfl, by decide⟩
  · rw [g3 2 hcount (by decide)]
    rfl
  · rw [g4, hid]
    rfl

/-- C8, amended: for every prior store state and container `c`, when
`DeleteContainer(c)` returns without error the key `docker:containers:<c.Id>`
is absent, the host's container set is the old set minus `c.Id` with every
other member kept, `delete_container:<hostId>:<c.Id>` has been published, and
`containers_running` is the old value minus 1 whenever the old value is an
integer above the smallest `int64` (an absent field counts as 0); in
particular, with a time to live of at least one second, after
`SetContainersList([c1, c2])` on host `h1` followed by `DeleteContainer(c1)`
the set is `{c2}`, `containers_running` is 1 and the message is
`delete_container:h1:c1`. -/
theorem DeleteContainer_effect (cache : Cache) (localts : Int) (container : ContainerInfo)
    (s : Store) (c' : Conn)
    (h : DeleteContainer cache localts container (Conn.idle s) = some (none, c')) :
    c'.server.data (containerKey container.Id) = none ∧
    (∀ x, x ∈ members (c'.server.data (hostContainersKey cache.id))
      ↔ x ∈ members (s.data (hostContainersKey cache.id)) ∧ x ≠ container.Id) ∧
    (∀ v, countOf (s.data (hostKey cache.id)) "containers_running" = some v →
      INT64_MIN ≤ v - 1 →
      field (c'.server.data (hostKey cache.id)) "containers_running"
        = some (formatInt (v - 1))) ∧
    c'.server.published
      = s.published ++ [(EVENTS_CHANNEL,
          "delete_container:" ++ cache.id ++ ":" ++ container.Id)] ∧
    (∀ (ttl lt1 lt2 : Int) (c1 : ContainerInfo) (s0 : Store) (k1 : Conn),
      c1.Id = "c1" → 1 ≤ Cache.ttlSecs ⟨"h1", ttl⟩ →
      SetContainersList ⟨"h1", ttl⟩ lt1 [⟨"c1"⟩, ⟨"c2"⟩] (Conn.idle s0) = some (none, k1) →
      ∃ k2, DeleteContainer ⟨"h1", ttl⟩ lt2 c1 k1 = some (none, k2) ∧
        (∀ x, x ∈ members (k2.server.data (hostContainersKey "h1")) ↔ x = "c2") ∧
        field (k2.server.data (hostKey "h1")) "containers_running" = some "1" ∧
        k2.server.published
          = k1.server.published ++ [(EVENTS_CHANNEL, "delete_container:h1:c1")]) := by
  obtain ⟨g1, g2, g3, g4⟩ := DeleteContainer_general cache localts container s c' h
  exact ⟨g1, g2, g3, g4, fun ttl lt1 lt2 c1 s0 k1 hid httl h1 =>
    DeleteContainer_scenario ttl lt1 lt2 c1 s0 k1 hid httl h1⟩

theorem DeleteContainer_effect_witness :
    DeleteContainer ⟨"h1", 15000000000⟩ 200 (ContainerInfo.demo "c1")
        (Conn.idle (Store.swept "2"))
      = some (none, Conn.idle (((Store.swept "2").runAll
          (deleteTxn ⟨"h1", 15000000000⟩ (ContainerInfo.demo "c1"))).2.runAll
          (deleteTail ⟨"h1", 15000000000⟩ 200 (ContainerInfo.demo "c1"))).2) ∧
    (Conn.idle (((Store.swept "2").runAll
          (deleteTxn ⟨"h1", 15000000000⟩ (ContainerInfo.demo "c1"))).2.runAll
          (deleteTail ⟨"h1", 15000000000⟩ 200 (ContainerInfo.demo "c1"))).2).server.data
        (containerKey "c1") = none ∧
    field ((Conn.idle (((Store.swept "2").runAll
          (deleteTxn ⟨"h1", 15000000000⟩ (ContainerInfo.demo "c1"))).2.runAll
          (deleteTail ⟨"h1", 15000000000⟩ 200 (ContainerInfo.demo "c1"))).2).server.data
        (hostKey "h1")) "containers_running" = some (formatInt (2 - 1)) ∧
    ∃ k2, DeleteContainer ⟨"h1", 15000000000⟩ 200 (ContainerInfo.demo "c1")
        (Conn.idle (Store.empty.runAll
          (listTxn ⟨"h1", 15000000000⟩ [⟨"c1"⟩, ⟨"c2"⟩]
            ++ listTail ⟨"h1", 15000000000⟩ 100 [⟨"c1"⟩, ⟨"c2"⟩])).2) = some (none, k2) ∧
      (∀ x, x ∈ members (k2.server.data (hostContainersKey "h1")) ↔ x = "c2") ∧
      field (k2.server.data (hostKey "h1")) "containers_running" = some "1" :=
  have h := DeleteContainer_effect ⟨"h1", 15000000000⟩ 200 (ContainerInfo.demo "c1")
    (Store.swept "2") _ rfl
  ⟨rfl, h.1, h.2.2.1 2 (by decide) (by decide),
    (h.2.2.2.2 15000000000 100 200 (ContainerInfo.demo "c1") Store.empty _ rfl (by decide)
      rfl).imp fun _ hk => ⟨hk.1, hk.2.1, hk.2.2.1⟩⟩

/-- C8 as stated fails for the count: a decrement that Redis rejects inside
the transaction is not reported.  With `containers_running` holding `two`, or
the smallest `int64`, `DeleteContainer` returns no error and the field is as it
was.  The scenario fails for a time to live below one second: the sweep's
`expire ... 0` deletes the set and the record, and `DeleteContainer(c1)` leaves
no member and the count -1. -/
theorem DeleteContainer_count_counterexample :
    (field ((Store.swept "two").data (hostKey "h1")) "containers_running" = some "two" ∧
      (DeleteContainer ⟨"h1", 15000000000⟩ 200 (ContainerInfo.demo "c1")
          (Conn.idle (Store.swept "two"))).map
          (fun r => (r.1, field (r.2.server.data (hostKey "h1")) "containers_running"))
        = some (none, some "two")) ∧
    (countOf ((Store.swept "-9223372036854775808").data (hostKey "h1")) "containers_running"
        = some INT64_MIN ∧
      (DeleteContainer ⟨"h1", 15000000000⟩ 200 (ContainerInfo.demo "c1")
          (Conn.idle (Store.swept "-9223372036854775808"))).map
          (fun r => (r.1, field (r.2.server.data (hostKey "h1")) "containers_running"))
        = some (none, some "-9223372036854775808")) ∧
    ((SetContainersList ⟨"h1", 750000000⟩ 100 [⟨"c1"⟩, ⟨"c2"⟩] (Conn.idle Store.empty)).bind
        (fun k1 => (DeleteContainer ⟨"h1", 750000000⟩ 200 (ContainerInfo.demo "c1") k1.2).map
          (fun r => (k1.1, r.1, members (r.2.server.data (hostContainersKey "h1")),
            field (r.2.server.data (hostKey "h1")) "containers_running")))
      = some (none, none, [], some "-1")) :=
  ⟨⟨by decide, by decide⟩, ⟨by decide, by decide⟩, by decide⟩

/-! ## SetContainerInfo and AddContainer -/

theorem SetContainerInfo_idle (cache : Cache) (container : ContainerInfo) (s : Store) :
    SetContainerInfo cache container (Conn.idle s)
      = (infoErr container, Conn.idle (s.runAll (infoCmds cache container)).2) := by
  unfold SetContainerInfo
  dsimp only
  have hq1 : ∀ x ∈ infoTxn cache container, x.queueable = true := by
    intro x hx
    simp [infoTxn] at hx
    rcases hx with rfl | ⟨_, _, _, rfl⟩ | rfl <;> rfl
  have ht := readReplies_transaction s (infoTxn cache container) hq1
  have hp : ((appendFields (CACHE_PREFIX ++ ":containers:" ++ container.Id) container.fields
        (((Conn.idle s).Append .multi).Append
          (.del (CACHE_PREFIX ++ ":containers:" ++ container.Id)))).Append
        (.expire (CACHE_PREFIX ++ ":containers:" ++ container.Id) cache.ttlSecs)).Append .exec
      = ⟨s, none, Command.multi :: (infoTxn cache container ++ [Command.exec]), []⟩ := by
    simp [appendFields_pending, Conn.Append, Conn.idle, infoTxn, containerKey]
  have hlen : container.fields.length + 4 = (infoTxn cache container).length + 2 := by
    simp [infoTxn]
  rw [hp, hlen, ht]
  simp only [infoCmds, infoErr]
  cases hj : container.json with
  | error e => rfl
  | ok b =>
    simp only []
    have ht2 := readReplies_transaction (s.runAll (infoTxn cache container)).2
      (jsonTxn cache container b)
      (by intro x hx; simp [jsonTxn] at hx; rcases hx with rfl | rfl | rfl <;> rfl)
    have hp2 : (((((Conn.idle (s.runAll (infoTxn cache container)).2).Append .multi).Append
          (.del (CACHE_PREFIX ++ ":containers:" ++ container.Id ++ ":json"))).Append
          (.set (CACHE_PREFIX ++ ":containers:" ++ container.Id ++ ":json") b)).Append
          (.expire (CACHE_PREFIX ++ ":containers:" ++ container.Id ++ ":json")
            cache.ttlSecs)).Append .exec
        = ⟨(s.runAll (infoTxn cache container)).2, none,
            Command.multi :: (jsonTxn cache container b ++ [Command.exec]), []⟩ := rfl
    rw [hp2, show (5 : Nat) = (jsonTxn cache container b).length + 2 from rfl, ht2, runAll_append]

theorem containerKey_json (id : String) : containerKey id ++ ":json" = containerKey (id ++ ":json") := by
  simp [containerKey, String.append_assoc]

/-- `SetContainerInfo` writes under `docker:containers:` only. -/
theorem infoCmds_target (cache : Cache) (container : ContainerInfo) :
    ∀ cmd ∈ infoCmds cache container,
      cmd.target = some (containerKey container.Id) ∨
      cmd.target = some (containerKey (container.Id ++ ":json")) := by
  intro cmd hcmd
  unfold infoCmds at hcmd
  have h1 : ∀ cmd ∈ infoTxn cache container, cmd.target = some (containerKey container.Id) := by
    intro x hx
    simp [infoTxn] at hx
    rcases hx with rfl | ⟨_, _, _, rfl⟩ | rfl <;> rfl
  split at hcmd
  · exact Or.inl (h1 cmd hcmd)
  · rcases List.mem_append.mp hcmd with h | h
    · exact Or.inl (h1 cmd h)
    · simp only [jsonTxn, containerKey_json, List.mem_cons, List.mem_singleton,
        List.not_mem_nil, or_false] at h
      rcases h with rfl | rfl | rfl <;> exact Or.inr rfl

theorem infoCmds_data_host (cache : Cache) (container : ContainerInfo) (s : Store) (k : String)
    (hk : ∀ id, k ≠ containerKey id) :
    (s.runAll (infoCmds cache container)).2.data k = s.data k := by
  apply runAll_data_ne
  intro cmd hcmd
  rcases infoCmds_target cache container cmd hcmd with h | h <;> rw [h] <;>
    simp only [ne_eq, Option.some.injEq] <;> exact fun e => hk _ e.symm

theorem hostContainersKey_ne_containerKey (a : String) : ∀ id, hostContainersKey a ≠ containerKey id :=
  fun id e => containerKey_ne_hostContainersKey id a e.symm

/-- `AddContainer` always returns and never writes the host's container set. -/
theorem AddContainer_frame (cache : Cache) (localts : Int) (container : ContainerInfo)
    (s : Store) :
    ∃ r s', AddContainer cache localts container (Conn.idle s) = some (r, Conn.idle s') ∧
      s'.data (hostContainersKey cache.id) = s.data (hostContainersKey cache.id) := by
  unfold AddContainer
  rw [SetContainerInfo_idle]
  have h0 := infoCmds_data_host cache container s (hostContainersKey cache.id)
    (hostContainersKey_ne_containerKey cache.id)
  generalize (s.runAll (infoCmds cache container)).2 = s1 at h0 ⊢
  have hne1 : ∀ (t : Store) (f : String) (n : Int),
      (t.run (.hincrby (hostKey cache.id) f n)).2.data (hostContainersKey cache.id)
        = t.data (hostContainersKey cache.id) := fun t f n =>
    run_data_ne _ _ _ (by simp [Command.target]; exact hostKey_ne_hostContainersKey cache.id)
  have hne2 : ∀ (t : Store) (f v : String),
      (t.run (.hset (hostKey cache.id) f v)).2.data (hostContainersKey cache.id)
        = t.data (hostContainersKey cache.id) := fun t f v =>
    run_data_ne _ _ _ (by simp [Command.target]; exact hostKey_ne_hostContainersKey cache.id)
  cases hE : infoErr container with
  | some e => exact ⟨_, _, rfl, h0⟩
  | none =>
    simp only []
    rw [← hostKey, Cmd_idle _ (.hincrby _ _ _) rfl]
    simp only []
    cases hE2 : (s1.run (.hincrby (hostKey cache.id) "containers_running" 1)).1.Err with
    | some e => exact ⟨_, _, rfl, by rw [hne1, h0]⟩
    | none =>
      simp only [refreshHostLastUpdate_idle, SetHostParam_idle]
      cases hE3 : ((s1.run (.hincrby (hostKey cache.id) "containers_running" 1)).2.run
          (.hset (hostKey cache.id) "last_update" (formatInt localts))).1.Err with
      | some e => exact ⟨_, _, rfl, by rw [hne2, hne1, h0]⟩
      | none =>
        simp only [publishEvent_idle]
        exact ⟨_, _, rfl, by simp only [hne2, hne1, h0]⟩

/-- C4: `AddContainer` increments the count and publishes the event but does
not add the id to the host's container set: for every store the key
`docker:hosts:<id>:containers` is after the call what it was before.  On an
empty store
`AddContainer(c1)` on host `h1` returns no error, `containers_running` is 1,
`new_container:h1:c1` is published, and the set `docker:hosts:h1:containers`
has no member; on a swept store holding `{c1, c2}` a new `c3` is not added.
`DeleteContainer(c1)` on the same store does remove `c1` from that set. -/
theorem AddContainer_leaves_set :
    (∀ (cache : Cache) (localts : Int) (container : ContainerInfo) (s : Store),
      ∃ r s', AddContainer cache localts container (Conn.idle s) = some (r, Conn.idle s') ∧
        s'.data (hostContainersKey cache.id) = s.data (hostContainersKey cache.id)) ∧
    (AddContainer ⟨"h1", 15000000000⟩ 100 (ContainerInfo.demo "c1") (Conn.idle Store.empty)).map
        (fun r => (r.1, members (r.2.server.data (hostContainersKey "h1")),
          field (r.2.server.data (hostKey "h1")) "containers_running",
          r.2.server.published))
      = some (none, [], some "1", [(EVENTS_CHANNEL, "new_container:h1:c1")]) ∧
    (AddContainer ⟨"h1", 15000000000⟩ 100 (ContainerInfo.demo "c3")
        (Conn.idle (Store.swept "2"))).map
        (fun r => (r.1, members (r.2.server.data (hostContainersKey "h1")),
          field (r.2.server.data (hostKey "h1")) "containers_running"))
      = some (none, ["c1", "c2"], some "3") ∧
    (DeleteContainer ⟨"h1", 15000000000⟩ 100 (ContainerInfo.demo "c1")
        (Conn.idle (Store.swept "2"))).map
        (fun r => (r.1, members (r.2.server.data (hostContainersKey "h1")),
          field (r.2.server.data (hostKey "h1")) "containers_running"))
      = some (none, ["c2"], some "1") :=
  ⟨AddContainer_frame, by decide, by decide, by decide⟩

/-! ## update: the full sweep -/

theorem updateLoop_idle (cache : Cache) (docker : Docker) (containers : List Container) :
    ∀ s : Store, ∃ e s', updateLoop cache docker containers (Conn.idle s) = (e, Conn.idle s') := by
  induction containers with
  | nil => intro s; exact ⟨none, s, rfl⟩
  | cons x rest ih =>
    intro s
    simp only [updateLoop]
    cases docker.InspectContainer x.Id with
    | error e => exact ih s
    | ok info =>
      simp only [SetContainerInfo_idle]
      cases infoErr info with
      | some e => exact ⟨_, _, rfl⟩
      | none => exact ih _

/-- A `hset` keeps every field but its own, accepted or not. -/
theorem run_hset_field_ne (s : Store) (k f v g : String) (hne : g ≠ f) :
    field ((s.run (.hset k f v)).2.data k) g = field (s.data k) g := by
  cases hE : (s.run (.hset k f v)).1.Err with
  | none => rw [run_hset_field _ _ _ _ _ hE, if_neg hne]
  | some e =>
    simp only [Store.run] at hE ⊢
    rcases hd : s.data k with _ | ⟨val, t⟩
    · rw [hd] at hE; simp [Reply.Err] at hE
    · cases val with
      | hash fs => rw [hd] at hE; simp [Reply.Err] at hE
      | str x => simp only [hd]
      | set x => simp only [hd]

theorem reported_ne_cannot (n : Nat) (p e : String) (hp : p.data.head? = some 'C') :
    "Reported " ++ toString n ++ " containers to the Cache" ≠ p ++ e := by
  intro h
  have h2 := congrArg (fun s => s.data.head?) h
  simp only [String.data_append, List.append_assoc] at h2
  rw [List.head?_append_of_ne_nil _ (by decide),
    List.head?_append_of_ne_nil _ (by intro h0; rw [h0] at hp; cases hp), hp] at h2
  revert h2
  decide

/-- The sweep writes the listing as `ListContainers` returned it: with a time
to live of at least one second, after a sweep that logs its `Reported` line
the list handed to `SetContainersList` is the whole listing, the host's
container set holds exactly the listed ids and `containers_running` is their
number, whatever `InspectContainer` answered. -/
theorem update_writes_listing (cache : Cache) (localts : Int) (docker : Docker) (s : Store)
    (containers : List Container) (log : List String) (c' : Conn)
    (httl : 1 ≤ cache.ttlSecs)
    (hlist : docker.ListContainers = .ok containers)
    (hrun : update cache localts docker (Conn.idle s) = some (log, c'))
    (hrep : ("Reported " ++ toString containers.length ++ " containers to the Cache") ∈ log) :
    (∃ k k', updateLoop cache docker containers (Conn.idle s) = (none, k) ∧
      SetContainersList cache localts containers k = some (none, k')) ∧
    (∀ x, x ∈ members (c'.server.data (hostContainersKey cache.id))
      ↔ x ∈ containers.map (fun c => c.Id)) ∧
    field (c'.server.data (hostKey cache.id)) "containers_running"
      = some (formatInt containers.length) := by
  unfold update at hrun
  rw [hlist] at hrun
  obtain ⟨e, s1, hloop⟩ := updateLoop_idle cache docker containers s
  simp only [hloop] at hrun
  cases e with
  | some e =>
    simp only [Option.some.injEq, Prod.mk.injEq] at hrun
    obtain ⟨rfl, -⟩ := hrun
    simp only [List.mem_singleton] at hrep
    exact absurd hrep (reported_ne_cannot containers.length _ e rfl)
  | none =>
    simp only [] at hrun
    cases hset : SetContainersList cache localts containers (Conn.idle s1) with
    | none => rw [hset] at hrun; cases hrun
    | some res =>
      obtain ⟨r, k'⟩ := res
      rw [hset] at hrun
      cases r with
      | some e =>
        simp only [Option.some.injEq, Prod.mk.injEq] at hrun
        obtain ⟨rfl, -⟩ := hrun
        simp only [List.mem_singleton] at hrep
        exact absurd hrep (reported_ne_cannot containers.length _ e rfl)
      | none =>
        have hm := SetContainersList_members cache localts containers s1 k' httl hset
        obtain ⟨hf, -, -⟩ := SetContainersList_fields cache localts containers s1 k' httl hset
        refine ⟨⟨_, _, hloop, hset⟩, ?_⟩
        simp only [] at hrun
        cases hv : docker.Version with
        | error e =>
          rw [hv] at hrun
          simp only [Option.some.injEq, Prod.mk.injEq] at hrun
          obtain ⟨-, rfl⟩ := hrun
          exact ⟨hm, hf⟩
        | ok v =>
          rw [hv] at hrun
          simp only [Option.some.injEq, Prod.mk.injEq] at hrun
          obtain ⟨-, rfl⟩ := hrun
          obtain ⟨n, hk, -⟩ := SetContainersList_run cache localts containers s1 none k' hset
          generalize ((s1.runAll (listTxn cache containers)).2.runAll
            (List.take n (listTail cache localts containers))).2 = s2 at hk
          subst hk
          rw [SetHostParam_idle]
          simp only [Conn.idle] at hm hf ⊢
          constructor
          · intro x
            rw [run_data_ne _ _ _ (by simp [Command.target]; exact hostKey_ne_hostContainersKey _)]
            exact hm x
          · rw [run_hset_field_ne _ _ _ _ _ (by decide)]
            exact hf

/-- C5: `update` hands `SetContainersList` the listing as `ListContainers`
returned it, vanished containers included.  With `c1` and `c2` listed and the
inspect of `c1` failing, the loop does `SetContainerInfo` for `c2` only (the
key of `c1` is absent, that of `c2` is written), the sweep logs its `Reported`
line, and afterwards `c1` is a member of the host's container set and
`containers_running` is 2.  Given the list of the containers inspected,
`[c2]`, on the connection the loop leaves, `SetContainersList` writes the set
`{c2}` and the count 1. -/
theorem update_keeps_vanished :
    (match Docker.vanishing.InspectContainer "c1" with
      | .error _ => true
      | .ok _ => false) = true ∧
    (match Docker.vanishing.InspectContainer "c2" with
      | .error _ => none
      | .ok info => some info.Id) = some "c2" ∧
    ((updateLoop ⟨"h1", 15000000000⟩ Docker.vanishing [⟨"c1"⟩, ⟨"c2"⟩]
        (Conn.idle Store.empty)).1,
      (updateLoop ⟨"h1", 15000000000⟩ Docker.vanishing [⟨"c1"⟩, ⟨"c2"⟩]
        (Conn.idle Store.empty)).2.server.data (containerKey "c1"),
      field ((updateLoop ⟨"h1", 15000000000⟩ Docker.vanishing [⟨"c1"⟩, ⟨"c2"⟩]
        (Conn.idle Store.empty)).2.server.data (containerKey "c2")) "id")
      = (none, none, some "c2") ∧
    (update ⟨"h1", 15000000000⟩ 100 Docker.vanishing (Conn.idle Store.empty)).map
        (fun r => (r.1, members (r.2.server.data (hostContainersKey "h1")),
          field (r.2.server.data (hostKey "h1")) "containers_running",
          r.2.server.data (containerKey "c1"),
          field (r.2.server.data (containerKey "c2")) "id"))
      = some (["Reported 2 containers to the Cache"], ["c1", "c2"], some "2", none, some "c2") ∧
    (SetContainersList ⟨"h1", 15000000000⟩ 100 [⟨"c2"⟩]
        (updateLoop ⟨"h1", 15000000000⟩ Docker.vanishing [⟨"c1"⟩, ⟨"c2"⟩]
          (Conn.idle Store.empty)).2).map
        (fun r => (r.1, members (r.2.server.data (hostContainersKey "h1")),
          field (r.2.server.data (hostKey "h1")) "containers_running"))
      = some (none, ["c2"], some "1") :=
  ⟨by decide, by decide, by decide, by decide, by decide⟩

/-! ## getHostTimestamp, the update interval and NewCache -/

/-- C6: `getHostTimestamp` never returns the store's time.  For every store
and every reading of the local clock it returns the local reading; with the
store's `time` answering `["1700000000", "0"]` and the local clock at 5 the
result is 5.  On a reply without error that is not a list the function
indexes the nil slice and panics instead of falling back. -/
theorem getHostTimestamp_returns_local (localts : Int) (s : Store) :
    getHostTimestamp localts (Conn.idle s) = some (localts, Conn.idle s) ∧
    (match (Store.empty.run .time).1.List with
      | .ok ts => some ts
      | .error _ => none) = some ["1700000000", "0"] ∧
    (getHostTimestamp 5 (Conn.idle Store.empty)).map Prod.fst = some 5 ∧
    hostTimestampOfReply 5 (.multi [.bulk "1700000000", .bulk "0"]) = some 5 ∧
    hostTimestampOfReply 5 (.bulk "1700000000") = none ∧
    hostTimestampOfReply 5 (.multi [.int 1700000000]) = none :=
  ⟨getHostTimestamp_idle localts s, by decide, by decide, by decide, by decide, by decide⟩

/-- C7: the field `update_interval` holds the time to live, one and a half
times the configured interval.  With the update interval 120 s `main` builds
the cache with `ttl` 180 s, `SetContainersList` writes `update_interval` 180,
and the pass of another host does not expire `h1` 240 s (twice the interval)
after its last update, only 360 s after it. -/
theorem update_interval_holds_ttl :
    mainTtl Config.default = 180000000000 ∧
    Cache.ttlSecs ⟨"h1", mainTtl Config.default⟩ = 180 ∧
    (SetContainersList ⟨"h1", mainTtl Config.default⟩ 1000 [] (Conn.idle Store.empty)).map
        (fun r => (r.1, field (r.2.server.data (hostKey "h1")) "update_interval",
          field (r.2.server.data (hostKey "h1")) "last_update"))
      = some (none, some "180", some "1000") ∧
    (SetContainersList ⟨"h1", mainTtl Config.default⟩ 1000 [] (Conn.idle Store.empty)).map
        (fun r => r.2.server.data)
      = some Store.afterDefaultSweep.data ∧
    (ClearExpiredHosts ⟨"h9", 180000000000⟩ 1240 (Conn.idle Store.afterDefaultSweep)).map
        (fun r => (r.1, members (r.2.server.data hostsKey), r.2.server.published))
      = some (none, ["h1"], [(EVENTS_CHANNEL, "refresh_containers:h1")]) ∧
    (ClearExpiredHosts ⟨"h9", 180000000000⟩ 1359 (Conn.idle Store.afterDefaultSweep)).map
        (fun r => (r.1, members (r.2.server.data hostsKey)))
      = some (none, ["h1"]) ∧
    (ClearExpiredHosts ⟨"h9", 180000000000⟩ 1360 (Conn.idle Store.afterDefaultSweep)).map
        (fun r => (r.1, members (r.2.server.data hostsKey), r.2.server.published))
      = some (none, [], [(EVENTS_CHANNEL, "refresh_containers:h1"),
          (EVENTS_CHANNEL, "expired_host:h1")]) :=
  ⟨by decide, by decide, by decide, rfl, by decide, by decide, by decide⟩

/-- C10: `NewCache` rejects a database index that is an integer.  For the path
`/12`, with a reachable server that would accept `select 12`, it returns the
error `Wrong Redis db` without sending `select`; for the one-digit path `/1`
it returns a cache without sending `select` (the selected database stays 0);
for the path `/ab`, which is no integer, it returns no error. -/
theorem NewCache_database_index :
    goAtoi "12" = (12, none) ∧
    (Store.empty.run (.select 12)).1.Err = none ∧
    (match NewCache (fun _ => .ok ⟨"localhost:6379", "/12", none⟩)
        (fun _ => .ok (Conn.idle Store.empty)) "redis://localhost:6379/12" "h1" 180000000000 with
      | .error e => some e
      | .ok _ => none) = some "Wrong Redis db: %!s(<nil>)" ∧
    goAtoi "1" = (1, none) ∧
    (match NewCache (fun _ => .ok ⟨"localhost:6379", "/1", none⟩)
        (fun _ => .ok (Conn.idle Store.empty)) "redis://localhost:6379/1" "h1" 180000000000 with
      | .error _ => none
      | .ok r => some (r.1.id, r.2.server.db, r.2.server.published))
      = some ("h1", 0, [(EVENTS_CHANNEL, "new_host:h1")]) ∧
    (goAtoi "ab").2 = some "strconv.Atoi: parsing \"ab\": invalid syntax" ∧
    (match NewCache (fun _ => .ok ⟨"localhost:6379", "/ab", none⟩)
        (fun _ => .ok (Conn.idle Store.empty)) "redis://localhost:6379/ab" "h1" 180000000000 with
      | .error _ => none
      | .ok r => some (r.1.id, r.2.server.db, r.2.server.published))
      = some ("h1", 0, [(EVENTS_CHANNEL, "new_host:h1")]) :=
  ⟨by decide, by decide, by decide, by decide, by decide, by decide, by decide⟩

end DockerCache
